import Mathlib

/-!
Verification of the ΩΔ143 Codex Drift capsule core (`capsule_core/`):
a shallow embedding of the 5D scroll-vector engine
(`scrollmath_engine.py`), the hierarchical memory recursion store
(`memory_recursion_manager.py`), the mesh scheduler
(`mesh_orchestrator.py`) and the agent registry (`agent_activator.py`),
together with theorems settling the behavioural claims about them.

Modelling conventions:
* Python floats are modelled as real numbers (exact arithmetic);
  quantities the source only ever combines by rational arithmetic
  (importance weights, timestamps) are modelled as rationals so the
  corresponding predicates stay decidable.
* Wall-clock reads (`datetime.now()`) are threaded explicitly as a
  `now : ℚ` argument (seconds).
* Python dicts are modelled as association lists in insertion order,
  matching dict iteration order; `list.sort` / `sorted` are modelled by
  a stable insertion sort, matching CPython's stable sort.
* A raised exception is modelled by an `Except.error` result carrying
  the state at the raise point.
-/

namespace CodexDrift

/-- Python `int(x)` applied to a float: truncation toward zero. -/
noncomputable def pytrunc (x : ℝ) : ℤ := if 0 ≤ x then ⌊x⌋ else -⌊-x⌋

/-- `scrollmath_engine.ScrollVector`: a 5-dimensional scroll vector. -/
structure ScrollVector where
  x : ℝ
  y : ℝ
  z : ℝ
  temporal : ℝ
  symbolic : ℝ

attribute [ext] ScrollVector

namespace ScrollVector

/-- `ScrollVector.magnitude`: 5D Euclidean length. -/
noncomputable def magnitude (v : ScrollVector) : ℝ :=
  Real.sqrt (v.x ^ 2 + v.y ^ 2 + v.z ^ 2 + v.temporal ^ 2 + v.symbolic ^ 2)

/-- `ScrollVector.normalize`: divide by the magnitude, returning the
vector unchanged when the magnitude is zero. -/
noncomputable def normalize (v : ScrollVector) : ScrollVector :=
  if v.magnitude = 0 then v
  else ⟨v.x / v.magnitude, v.y / v.magnitude, v.z / v.magnitude,
        v.temporal / v.magnitude, v.symbolic / v.magnitude⟩

/-- Componentwise difference, as constructed inline throughout the
source (`ScrollVector(v1.x - v2.x, ...)`). -/
noncomputable def sub (v w : ScrollVector) : ScrollVector :=
  ⟨v.x - w.x, v.y - w.y, v.z - w.z, v.temporal - w.temporal, v.symbolic - w.symbolic⟩

/-- The zero vector `ScrollVector(0, 0, 0, 0, 0)`. -/
def zero : ScrollVector := ⟨0, 0, 0, 0, 0⟩

/-- The five components viewed as a point of 5-dimensional Euclidean
space, used to compare `magnitude` with the mathematical norm. -/
noncomputable def toEuclidean (v : ScrollVector) : EuclideanSpace ℝ (Fin 5) :=
  ![v.x, v.y, v.z, v.temporal, v.symbolic]

theorem magnitude_eq_norm (v : ScrollVector) : v.magnitude = ‖v.toEuclidean‖ := by
  rw [EuclideanSpace.norm_eq, magnitude]
  congr 1
  rw [Fin.sum_univ_five]
  simp [toEuclidean, Real.norm_eq_abs, sq_abs]

theorem magnitude_nonneg (v : ScrollVector) : 0 ≤ v.magnitude :=
  Real.sqrt_nonneg _

theorem magnitude_eq_zero_iff (v : ScrollVector) : v.magnitude = 0 ↔ v = zero := by
  rw [magnitude, Real.sqrt_eq_zero (by positivity)]
  constructor
  · intro h
    have hx : v.x = 0 := by nlinarith [sq_nonneg v.x, sq_nonneg v.y, sq_nonneg v.z, sq_nonneg v.temporal, sq_nonneg v.symbolic]
    have hy : v.y = 0 := by nlinarith [sq_nonneg v.x, sq_nonneg v.y, sq_nonneg v.z, sq_nonneg v.temporal, sq_nonneg v.symbolic]
    have hz : v.z = 0 := by nlinarith [sq_nonneg v.x, sq_nonneg v.y, sq_nonneg v.z, sq_nonneg v.temporal, sq_nonneg v.symbolic]
    have ht : v.temporal = 0 := by nlinarith [sq_nonneg v.x, sq_nonneg v.y, sq_nonneg v.z, sq_nonneg v.temporal, sq_nonneg v.symbolic]
    have hs : v.symbolic = 0 := by nlinarith [sq_nonneg v.x, sq_nonneg v.y, sq_nonneg v.z, sq_nonneg v.temporal, sq_nonneg v.symbolic]
    ext <;> simp [zero, hx, hy, hz, ht, hs]
  · intro h
    subst h
    simp [zero]

theorem magnitude_normalize (v : ScrollVector) (hv : v ≠ zero) :
    (normalize v).magnitude = 1 := by
  have hm : v.magnitude ≠ 0 := fun h => hv ((magnitude_eq_zero_iff v).mp h)
  rw [normalize, if_neg hm, magnitude]
  have hsq : v.x ^ 2 + v.y ^ 2 + v.z ^ 2 + v.temporal ^ 2 + v.symbolic ^ 2 =
      v.magnitude ^ 2 := (Real.sq_sqrt (by positivity)).symm
  have : (v.x / v.magnitude) ^ 2 + (v.y / v.magnitude) ^ 2 + (v.z / v.magnitude) ^ 2 +
      (v.temporal / v.magnitude) ^ 2 + (v.symbolic / v.magnitude) ^ 2 = 1 := by
    field_simp
    linarith [hsq]
  rw [this, Real.sqrt_one]

theorem magnitude_self_sub_zero (v : ScrollVector) : (sub v v).magnitude = 0 := by
  simp [sub, magnitude]

end ScrollVector

/-- Claim C9: for the 5D vector type, `magnitude` is the Euclidean norm
over all five components, `normalize` of the zero vector is the zero
vector (no division by zero), and for every non-zero vector `v` the
magnitude of `normalize v` equals 1 up to a `1e-9` tolerance. -/
theorem scrollVector_magnitude_normalize_spec :
    (∀ v : ScrollVector, v.magnitude = ‖v.toEuclidean‖) ∧
    ScrollVector.normalize ScrollVector.zero = ScrollVector.zero ∧
    (∀ v : ScrollVector, v ≠ ScrollVector.zero →
      |(ScrollVector.normalize v).magnitude - 1| ≤ 1e-9) := by
  refine ⟨ScrollVector.magnitude_eq_norm, ?_, ?_⟩
  · rw [ScrollVector.normalize, if_pos]
    rw [ScrollVector.magnitude_eq_zero_iff]
  · intro v hv
    rw [ScrollVector.magnitude_normalize v hv]
    norm_num

/-- Claim C9, witness: the vector `(3, 4, 0, 0, 0)` is non-zero and its
normalization has magnitude 1 up to `1e-9`. -/
theorem scrollVector_magnitude_normalize_spec_witness :
    (⟨3, 4, 0, 0, 0⟩ : ScrollVector) ≠ ScrollVector.zero ∧
    |(ScrollVector.normalize ⟨3, 4, 0, 0, 0⟩).magnitude - 1| ≤ 1e-9 := by
  have hne : (⟨3, 4, 0, 0, 0⟩ : ScrollVector) ≠ ScrollVector.zero := by
    intro h
    have := congrArg ScrollVector.x h
    simp [ScrollVector.zero] at this
  exact ⟨hne, scrollVector_magnitude_normalize_spec.2.2 _ hne⟩

/-! ### Stable sorting, modelling CPython's `sorted` / `list.sort` -/

/-- One insertion step of a stable ascending insertion sort: `a` is
placed after every element whose key is `≤ key a`. -/
def insertAscBy {α : Type _} {β : Type _} [LinearOrder β] (key : α → β) (a : α) :
    List α → List α
  | [] => [a]
  | b :: bs => if key a < key b then a :: b :: bs else b :: insertAscBy key a bs

/-- Stable ascending sort by key: the model of Python `sorted(l, key=key)`. -/
def sortAscBy {α : Type _} {β : Type _} [LinearOrder β] (key : α → β) (l : List α) : List α :=
  l.foldl (fun acc a => insertAscBy key a acc) []

/-- One insertion step of a stable descending insertion sort: `a` is
placed after every element whose key is `≥ key a`. -/
def insertDescBy {α : Type _} {β : Type _} [LinearOrder β] (key : α → β) (a : α) :
    List α → List α
  | [] => [a]
  | b :: bs => if key b < key a then a :: b :: bs else b :: insertDescBy key a bs

/-- Stable descending sort by key: the model of Python
`sorted(l, key=key, reverse=True)` / `l.sort(key=key, reverse=True)`. -/
def sortDescBy {α : Type _} {β : Type _} [LinearOrder β] (key : α → β) (l : List α) : List α :=
  l.foldl (fun acc a => insertDescBy key a acc) []

section SortLemmas

variable {α : Type _} {β : Type _} [LinearOrder β] (key : α → β)

theorem insertAscBy_perm (a : α) (l : List α) :
    List.Perm (insertAscBy key a l) (a :: l) := by
  induction l with
  | nil => simp [insertAscBy]
  | cons b bs ih =>
    rw [insertAscBy]
    by_cases h : key a < key b
    · rw [if_pos h]
    · rw [if_neg h]
      exact List.Perm.trans (ih.cons b) (List.Perm.swap _ _ _)

theorem insertDescBy_perm (a : α) (l : List α) :
    List.Perm (insertDescBy key a l) (a :: l) := by
  induction l with
  | nil => simp [insertDescBy]
  | cons b bs ih =>
    rw [insertDescBy]
    by_cases h : key b < key a
    · rw [if_pos h]
    · rw [if_neg h]
      exact List.Perm.trans (ih.cons b) (List.Perm.swap _ _ _)

theorem sortAscBy_perm (l : List α) : List.Perm (sortAscBy key l) l := by
  suffices h : ∀ (l acc : List α),
      List.Perm (l.foldl (fun acc a => insertAscBy key a acc) acc) (acc ++ l) by
    simpa using h l []
  intro l
  induction l with
  | nil => simp
  | cons a l ih =>
    intro acc
    have h1 : (a :: l).foldl (fun acc a => insertAscBy key a acc) acc
        = l.foldl (fun acc a => insertAscBy key a acc) (insertAscBy key a acc) := rfl
    rw [h1]
    refine List.Perm.trans (ih _) ?_
    refine List.Perm.trans ((insertAscBy_perm key a acc).append_right l) ?_
    simpa using (@List.perm_middle _ a acc l).symm

theorem sortDescBy_perm (l : List α) : List.Perm (sortDescBy key l) l := by
  suffices h : ∀ (l acc : List α),
      List.Perm (l.foldl (fun acc a => insertDescBy key a acc) acc) (acc ++ l) by
    simpa using h l []
  intro l
  induction l with
  | nil => simp
  | cons a l ih =>
    intro acc
    have h1 : (a :: l).foldl (fun acc a => insertDescBy key a acc) acc
        = l.foldl (fun acc a => insertDescBy key a acc) (insertDescBy key a acc) := rfl
    rw [h1]
    refine List.Perm.trans (ih _) ?_
    refine List.Perm.trans ((insertDescBy_perm key a acc).append_right l) ?_
    simpa using (@List.perm_middle _ a acc l).symm

theorem insertAscBy_sorted {a : α} {l : List α}
    (hl : l.Pairwise (fun p q => key p ≤ key q)) :
    (insertAscBy key a l).Pairwise (fun p q => key p ≤ key q) := by
  induction l with
  | nil => simp [insertAscBy]
  | cons b bs ih =>
    rw [insertAscBy]
    rcases List.pairwise_cons.mp hl with ⟨hb, hbs⟩
    by_cases h : key a < key b
    · rw [if_pos h]
      refine List.pairwise_cons.mpr ⟨?_, hl⟩
      intro c hc
      rcases List.mem_cons.mp hc with hc | hc
      · exact hc ▸ le_of_lt h
      · exact le_trans (le_of_lt h) (hb c hc)
    · rw [if_neg h]
      refine List.pairwise_cons.mpr ⟨?_, ih hbs⟩
      intro c hc
      have hc' := (insertAscBy_perm key a bs).mem_iff.mp hc
      rcases List.mem_cons.mp hc' with hc' | hc'
      · subst hc'
        exact le_of_not_lt h
      · exact hb c hc'

theorem insertDescBy_sorted {a : α} {l : List α}
    (hl : l.Pairwise (fun p q => key q ≤ key p)) :
    (insertDescBy key a l).Pairwise (fun p q => key q ≤ key p) := by
  induction l with
  | nil => simp [insertDescBy]
  | cons b bs ih =>
    rw [insertDescBy]
    rcases List.pairwise_cons.mp hl with ⟨hb, hbs⟩
    by_cases h : key b < key a
    · rw [if_pos h]
      refine List.pairwise_cons.mpr ⟨?_, hl⟩
      intro c hc
      rcases List.mem_cons.mp hc with hc | hc
      · exact hc ▸ le_of_lt h
      · exact le_trans (hb c hc) (le_of_lt h)
    · rw [if_neg h]
      refine List.pairwise_cons.mpr ⟨?_, ih hbs⟩
      intro c hc
      have hc' := (insertDescBy_perm key a bs).mem_iff.mp hc
      rcases List.mem_cons.mp hc' with hc' | hc'
      · subst hc'
        exact le_of_not_lt h
      · exact hb c hc'

theorem sortAscBy_sorted (l : List α) :
    (sortAscBy key l).Pairwise (fun p q => key p ≤ key q) := by
  suffices h : ∀ (l acc : List α), acc.Pairwise (fun p q => key p ≤ key q) →
      (l.foldl (fun acc a => insertAscBy key a acc) acc).Pairwise (fun p q => key p ≤ key q) by
    exact h l [] (by simp)
  intro l
  induction l with
  | nil => intro acc h; simpa using h
  | cons a l ih => intro acc h; exact ih _ (insertAscBy_sorted key h)

theorem sortDescBy_sorted (l : List α) :
    (sortDescBy key l).Pairwise (fun p q => key q ≤ key p) := by
  suffices h : ∀ (l acc : List α), acc.Pairwise (fun p q => key q ≤ key p) →
      (l.foldl (fun acc a => insertDescBy key a acc) acc).Pairwise (fun p q => key q ≤ key p) by
    exact h l [] (by simp)
  intro l
  induction l with
  | nil => intro acc h; simpa using h
  | cons a l ih => intro acc h; exact ih _ (insertDescBy_sorted key h)

theorem insertAscBy_eq_append {a : α} {l : List α}
    (h : ∀ b ∈ l, key b ≤ key a) : insertAscBy key a l = l ++ [a] := by
  induction l with
  | nil => simp [insertAscBy]
  | cons b bs ih =>
    rw [insertAscBy, if_neg (not_lt.mpr (h b (by simp)))]
    rw [ih fun c hc => h c (by simp [hc])]
    simp

theorem insertDescBy_eq_append {a : α} {l : List α}
    (h : ∀ b ∈ l, key a ≤ key b) : insertDescBy key a l = l ++ [a] := by
  induction l with
  | nil => simp [insertDescBy]
  | cons b bs ih =>
    rw [insertDescBy, if_neg (not_lt.mpr (h b (by simp)))]
    rw [ih fun c hc => h c (by simp [hc])]
    simp

/-- A list already sorted ascending by key is left unchanged by the
stable ascending sort (in particular the sort is stable on ties). -/
theorem sortAscBy_eq_self {l : List α}
    (hl : l.Pairwise (fun p q => key p ≤ key q)) : sortAscBy key l = l := by
  suffices h : ∀ (l acc : List α), (acc ++ l).Pairwise (fun p q => key p ≤ key q) →
      l.foldl (fun acc a => insertAscBy key a acc) acc = acc ++ l by
    exact h l [] (by simpa using hl)
  intro l
  induction l with
  | nil => intro acc _; simp
  | cons a l ih =>
    intro acc h
    have hins : insertAscBy key a acc = acc ++ [a] := by
      refine insertAscBy_eq_append key ?_
      intro b hb
      have := (List.pairwise_append.mp h).2.2
      exact this b hb a (by simp)
    calc (a :: l).foldl (fun acc a => insertAscBy key a acc) acc
        = l.foldl (fun acc a => insertAscBy key a acc) (insertAscBy key a acc) := rfl
      _ = l.foldl (fun acc a => insertAscBy key a acc) (acc ++ [a]) := by rw [hins]
      _ = (acc ++ [a]) ++ l := ih (acc ++ [a]) (by simpa using h)
      _ = acc ++ a :: l := by simp

/-- A list already sorted descending by key is left unchanged by the
stable descending sort (in particular the sort is stable on ties). -/
theorem sortDescBy_eq_self {l : List α}
    (hl : l.Pairwise (fun p q => key q ≤ key p)) : sortDescBy key l = l := by
  suffices h : ∀ (l acc : List α), (acc ++ l).Pairwise (fun p q => key q ≤ key p) →
      l.foldl (fun acc a => insertDescBy key a acc) acc = acc ++ l by
    exact h l [] (by simpa using hl)
  intro l
  induction l with
  | nil => intro acc _; simp
  | cons a l ih =>
    intro acc h
    have hins : insertDescBy key a acc = acc ++ [a] := by
      refine insertDescBy_eq_append key ?_
      intro b hb
      have := (List.pairwise_append.mp h).2.2
      exact this b hb a (by simp)
    calc (a :: l).foldl (fun acc a => insertDescBy key a acc) acc
        = l.foldl (fun acc a => insertDescBy key a acc) (insertDescBy key a acc) := rfl
      _ = l.foldl (fun acc a => insertDescBy key a acc) (acc ++ [a]) := by rw [hins]
      _ = (acc ++ [a]) ++ l := ih (acc ++ [a]) (by simpa using h)
      _ = acc ++ a :: l := by simp

/-- In a descending-sorted list, every taken element's key dominates
every dropped element's key. -/
theorem sortDescBy_take_ge_drop (l : List α) (n : ℕ) {a b : α}
    (ha : a ∈ (sortDescBy key l).take n) (hb : b ∈ (sortDescBy key l).drop n) :
    key b ≤ key a := by
  have h := sortDescBy_sorted key l
  rw [← List.take_append_drop n (sortDescBy key l), List.pairwise_append] at h
  exact h.2.2 a ha b hb

end SortLemmas

/-- Python `min(l, key=key)`: the first element attaining the minimal
key (`min` replaces its running best only on a strict decrease). -/
def pyMinBy {α : Type _} {β : Type _} [LinearOrder β] (key : α → β) : List α → Option α
  | [] => none
  | a :: l => some (l.foldl (fun best x => if key x < key best then x else best) a)

theorem pyMinBy_mem {α : Type _} {β : Type _} [LinearOrder β] (key : α → β)
    {l : List α} {m : α} (h : pyMinBy key l = some m) : m ∈ l := by
  cases l with
  | nil => simp [pyMinBy] at h
  | cons a l =>
    rw [pyMinBy, Option.some_inj] at h
    subst h
    suffices hgen : ∀ (l : List α) (a : α),
        l.foldl (fun best x => if key x < key best then x else best) a ∈ a :: l by
      exact hgen l a
    intro l
    induction l with
    | nil => intro a; simp
    | cons b bs ih =>
      intro a
      rw [List.foldl_cons]
      by_cases h : key b < key a
      · rw [if_pos h]
        rcases List.mem_cons.mp (ih b) with h' | h'
        · rw [h']; simp
        · simp [h']
      · rw [if_neg h]
        rcases List.mem_cons.mp (ih a) with h' | h'
        · rw [h']; simp
        · simp [h']

theorem pyMinBy_le {α : Type _} {β : Type _} [LinearOrder β] (key : α → β)
    {l : List α} {m : α} (h : pyMinBy key l = some m) :
    ∀ b ∈ l, key m ≤ key b := by
  cases l with
  | nil => simp [pyMinBy] at h
  | cons a l =>
    rw [pyMinBy, Option.some_inj] at h
    subst h
    suffices hgen : ∀ (l : List α) (a : α),
        key (l.foldl (fun best x => if key x < key best then x else best) a) ≤ key a ∧
        ∀ b ∈ l, key (l.foldl (fun best x => if key x < key best then x else best) a) ≤ key b by
      intro b hb
      rcases List.mem_cons.mp hb with hb | hb
      · exact hb ▸ (hgen l a).1
      · exact (hgen l a).2 b hb
    intro l
    induction l with
    | nil => intro a; simp
    | cons b bs ih =>
      intro a
      rw [List.foldl_cons]
      by_cases h : key b < key a
      · rw [if_pos h]
        refine ⟨le_trans (ih b).1 (le_of_lt h), ?_⟩
        intro c hc
        rcases List.mem_cons.mp hc with hc | hc
        · exact hc ▸ (ih b).1
        · exact (ih b).2 c hc
      · rw [if_neg h]
        refine ⟨(ih a).1, ?_⟩
        intro c hc
        rcases List.mem_cons.mp hc with hc | hc
        · exact hc ▸ le_trans (ih a).1 (le_of_not_lt h)
        · exact (ih a).2 c hc

theorem pyMinBy_isSome {α : Type _} {β : Type _} [LinearOrder β] (key : α → β)
    {l : List α} (h : l ≠ []) : ∃ m, pyMinBy key l = some m := by
  cases l with
  | nil => exact absurd rfl h
  | cons a l => exact ⟨_, rfl⟩

/-! ### Memory recursion store (`memory_recursion_manager.py`) -/

/-- `MemoryFragment`: a fragment of memory in the recursion system.
`content` holds `str(content)`, which is all the source ever reads of
the payload; the timestamp is the wall-clock time of creation in
seconds. -/
structure MemoryFragment where
  fragmentId : String
  content : String
  contextVector : ScrollVector
  timestamp : ℚ
  accessCount : ℕ
  importance : ℚ
  parentFragments : List String
  childFragments : List String

/-- `MemoryFragment.update_access`: bump the access count and decay the
importance by wall-clock age in days (`now` is the clock reading the
source takes via `datetime.now()`). -/
def updateAccess (now : ℚ) (f : MemoryFragment) : MemoryFragment :=
  let timeDecay := (now - f.timestamp) / 86400
  { f with
    accessCount := f.accessCount + 1
    importance := f.importance * max (1 / 10) (1 - timeDecay * (1 / 100)) }

/-- `RecursionLayer`: one depth level of the hierarchy.  The fragment
dict is modelled as a list in insertion order (dict iteration order). -/
structure RecursionLayer where
  layerId : String
  depth : ℕ
  fragments : List MemoryFragment
  coherenceThreshold : ℝ
  maxFragments : ℕ

/-- Python dict assignment `fragments[f.fragment_id] = f`: replace in
place when the key exists, append otherwise. -/
def upsertFragment (l : List MemoryFragment) (f : MemoryFragment) : List MemoryFragment :=
  if l.any (fun g => g.fragmentId = f.fragmentId) then
    l.map (fun g => if g.fragmentId = f.fragmentId then f else g)
  else l ++ [f]

/-- `RecursionLayer.add_fragment`: when the layer is at (or above)
capacity, delete the fragment with the least `importance * access_count`
(the first minimal one, per Python `min`), then insert.  The `none`
branch of the eviction (an empty layer with zero capacity, where Python
`min` would raise `ValueError`) is unreachable for the initialised
layers, whose capacity is at least 100. -/
def RecursionLayer.addFragment (layer : RecursionLayer) (f : MemoryFragment) :
    RecursionLayer :=
  let frags :=
    if layer.maxFragments ≤ layer.fragments.length then
      match pyMinBy (fun g => g.importance * (g.accessCount : ℚ)) layer.fragments with
      | some leastImportant =>
          layer.fragments.filter (fun g => g.fragmentId ≠ leastImportant.fragmentId)
      | none => layer.fragments
    else layer.fragments
  { layer with fragments := upsertFragment frags f }

/-- `RecursionLayer._calculate_vector_similarity`: similarity of two
scroll vectors, `max(0, 1 - distance/5)`. -/
noncomputable def calculateVectorSimilarity (v1 v2 : ScrollVector) : ℝ :=
  max 0 (1 - (ScrollVector.sub v1 v2).magnitude / 5)

/-- `RecursionLayer.find_similar_fragments`: keep the fragments at least
`threshold`-similar to the context vector, sorted by importance
descending.  `threshold or self.coherence_threshold` in the source
treats an explicit `0.0` as falsy, which the inner `if` mirrors. -/
noncomputable def RecursionLayer.findSimilarFragments (layer : RecursionLayer)
    (contextVector : ScrollVector) (threshold : Option ℝ) : List MemoryFragment :=
  let t := match threshold with
    | some t => if t = 0 then layer.coherenceThreshold else t
    | none => layer.coherenceThreshold
  let similar := layer.fragments.filter (fun f =>
    decide (t ≤ calculateVectorSimilarity contextVector f.contextVector))
  sortDescBy (fun f => f.importance) similar

/-- `MemoryRecursionManager` state: the layer dict keyed `0..maxDepth-1`
is modelled as a list whose index is the depth. -/
structure ManagerState where
  maxRecursionDepth : ℕ
  layers : List RecursionLayer

/-- `MemoryRecursionManager._initialize_recursion_layers` (together with
the constructor): one layer per depth, threshold tightening by `0.9^d`,
capacity `max(100, 1000 - 100 d)`. -/
noncomputable def initialManagerState (maxDepth : ℕ) (coherenceThreshold : ℝ) :
    ManagerState where
  maxRecursionDepth := maxDepth
  layers := (List.range maxDepth).map fun depth =>
    { layerId := "layer_" ++ toString depth
      depth := depth
      fragments := []
      coherenceThreshold := coherenceThreshold * (0.9 : ℝ) ^ depth
      maxFragments := (max 100 (1000 - 100 * (depth : ℤ))).toNat }

/-- `MemoryRecursionManager._calculate_optimal_depth`: average of the
length-based content complexity and the vector magnitude, scaled by the
maximum depth, truncated by Python `int()`, clamped to
`[0, maxDepth - 1]`. -/
noncomputable def calculateOptimalDepth (maxDepth : ℕ) (content : String)
    (contextVector : ScrollVector) : ℤ :=
  let contentComplexity : ℝ := (content.length : ℝ) / 1000
  let vectorMagnitude := contextVector.magnitude
  let depthFactor := (contentComplexity + vectorMagnitude) / 2
  let optimalDepth := pytrunc (depthFactor * (maxDepth : ℝ))
  min (max 0 optimalDepth) ((maxDepth : ℤ) - 1)

/-- Append `childId` to the `child_fragments` list of every fragment
whose id is in `ids` (the loop bodies `similar.child_fragments.append`
and `parent.child_fragments.append`). -/
def appendChildTo (l : List MemoryFragment) (ids : List String) (childId : String) :
    List MemoryFragment :=
  l.map fun g =>
    if ids.contains g.fragmentId then
      { g with childFragments := g.childFragments ++ [childId] }
    else g

/-- Overwrite the `parent_fragments` list of the fragment with id
`fragId` (the accumulated `fragment.parent_fragments.append` calls,
applied to the stored object). -/
def setParents (l : List MemoryFragment) (fragId : String) (parents : List String) :
    List MemoryFragment :=
  l.map fun g =>
    if g.fragmentId = fragId then { g with parentFragments := parents } else g

/-- The parent-layer half of the linking loop: append the new fragment
id to the `child_fragments` of the linked parent-layer fragment (a
no-op when the parent layer is absent or no candidate was found). -/
def connectParentLayer (layers1 : List RecursionLayer) (d : ℕ) (pl : List String)
    (cid : String) : List RecursionLayer :=
  match layers1[d]? with
  | none => layers1
  | some parentLayer =>
      layers1.set d { parentLayer with fragments := appendChildTo parentLayer.fragments pl cid }

/-- `MemoryRecursionManager._create_recursive_connections`: link the new
fragment to up to three same-layer fragments at least 0.7-similar (the
just-stored fragment itself is skipped) and to the head of the parent
layer's 0.6-similar list.  Indexing a missing layer is the source's
uncaught `KeyError`; the state at the raise point is returned alongside
the error. -/
noncomputable def createRecursiveConnections (st : ManagerState)
    (fragment : MemoryFragment) (depth : ℤ) : ManagerState × Except String Unit :=
  if depth < 0 then (st, Except.error "KeyError")
  else
    match st.layers[depth.toNat]? with
    | none => (st, Except.error "KeyError")
    | some currentLayer =>
      let similarFragments := currentLayer.findSimilarFragments fragment.contextVector (some 0.7)
      let sameLayerLinks := ((similarFragments.take 3).filter
          (fun s => s.fragmentId ≠ fragment.fragmentId)).map (fun s => s.fragmentId)
      let parentLink : List String :=
        if 0 < depth then
          match st.layers[depth.toNat - 1]? with
          | none => []
          | some parentLayer =>
            match parentLayer.findSimilarFragments fragment.contextVector (some 0.6) with
            | [] => []
            | parent :: _ => [parent.fragmentId]
        else []
      let newParents := fragment.parentFragments ++ sameLayerLinks ++ parentLink
      let currentFrags :=
        setParents (appendChildTo currentLayer.fragments sameLayerLinks fragment.fragmentId)
          fragment.fragmentId newParents
      let currentLayer' := { currentLayer with fragments := currentFrags }
      let layers1 := st.layers.set depth.toNat currentLayer'
      let layers2 :=
        if 0 < depth then
          connectParentLayer layers1 (depth.toNat - 1) parentLink fragment.fragmentId
        else layers1
      ({ st with layers := layers2 }, Except.ok ())

/-- The `MemoryFragment(...)` literal `store_memory_fragment` builds:
zero access count, empty link lists, creation time `now`. -/
def freshFragment (content : String) (contextVector : ScrollVector) (importance : ℚ)
    (fragmentId : String) (now : ℚ) : MemoryFragment :=
  { fragmentId := fragmentId, content := content, contextVector := contextVector,
    timestamp := now, accessCount := 0, importance := importance,
    parentFragments := [], childFragments := [] }

/-- The `if target_depth in self.recursion_layers` store step of
`store_memory_fragment`: insert into the target layer when it exists,
leave the state unchanged otherwise. -/
def storeIntoLayer (st : ManagerState) (d : ℕ) (fragment : MemoryFragment) : ManagerState :=
  match st.layers[d]? with
  | some layer => { st with layers := st.layers.set d (layer.addFragment fragment) }
  | none => st

/-- `MemoryRecursionManager.store_memory_fragment`.  The generated
fragment id (an md5/timestamp tag) is passed in as `fragmentId`; a
raised exception is an `Except.error` result beside the state at the
raise point. -/
noncomputable def storeMemoryFragment (st : ManagerState) (content : String)
    (contextVector : ScrollVector) (importance : ℚ) (targetDepth : Option ℤ)
    (fragmentId : String) (now : ℚ) : ManagerState × Except String String :=
  let fragment : MemoryFragment :=
    freshFragment content contextVector importance fragmentId now
  let td0 : ℤ :=
    targetDepth.getD (calculateOptimalDepth st.maxRecursionDepth content contextVector)
  let td : ℤ := min td0 ((st.maxRecursionDepth : ℤ) - 1)
  let st1 := if td < 0 then st else storeIntoLayer st td.toNat fragment
  match createRecursiveConnections st1 fragment td with
  | (st2, Except.ok _) => (st2, Except.ok fragmentId)
  | (st2, Except.error e) => (st2, Except.error e)

/-- The candidate list of `MemoryRecursionManager.retrieve_memory_fragments`:
the threshold-similar fragments of every layer, concatenated and stably
sorted by `importance * access_count` descending. -/
noncomputable def retrieveCandidates (st : ManagerState) (queryVector : ScrollVector)
    (similarityThreshold : ℝ) : List MemoryFragment :=
  let allCandidates := st.layers.foldl
    (fun acc layer => acc ++ layer.findSimilarFragments queryVector (some similarityThreshold)) []
  sortDescBy (fun f => f.importance * (f.accessCount : ℚ)) allCandidates

/-- `MemoryRecursionManager.retrieve_memory_fragments` (defaults
`max_results=10`, `similarity_threshold=0.5`): take the top candidates,
update their access statistics in place, and return them (the returned
fragments are the updated objects). -/
noncomputable def retrieveMemoryFragments (st : ManagerState) (queryVector : ScrollVector)
    (maxResults : ℕ) (similarityThreshold : ℝ) (now : ℚ) :
    ManagerState × List MemoryFragment :=
  let top := (retrieveCandidates st queryVector similarityThreshold).take maxResults
  let topIds := top.map (fun f => f.fragmentId)
  let st' := { st with layers := st.layers.map fun layer =>
    { layer with fragments := layer.fragments.map fun g =>
        if topIds.contains g.fragmentId then updateAccess now g else g } }
  (st', top.map (updateAccess now))

/-! ### Recursive computation (`start_recursive_computation` et al.) -/

/-- `MemoryRecursionManager._compute_next_iteration`.  Under
`field_convergence` a non-empty memory list with positive weight moves
the vector toward the importance-weighted centroid with damping 0.1;
otherwise the vector decays by 0.95 toward the origin.  `spiral_drift`
applies the spiral perturbation; any other type is the identity. -/
noncomputable def computeNextIteration (currentVector : ScrollVector)
    (memories : List MemoryFragment) (computationType : String) : ScrollVector :=
  if computationType = "field_convergence" then
    let weighted : Option ScrollVector :=
      match memories with
      | [] => none
      | _ =>
        let weightSum : ℚ := (memories.map (fun m => m.importance)).sum
        if 0 < weightSum then
          let wx := (memories.map (fun m => m.contextVector.x * (m.importance : ℝ))).sum / (weightSum : ℝ)
          let wy := (memories.map (fun m => m.contextVector.y * (m.importance : ℝ))).sum / (weightSum : ℝ)
          let wz := (memories.map (fun m => m.contextVector.z * (m.importance : ℝ))).sum / (weightSum : ℝ)
          let wt := (memories.map (fun m => m.contextVector.temporal * (m.importance : ℝ))).sum / (weightSum : ℝ)
          let ws := (memories.map (fun m => m.contextVector.symbolic * (m.importance : ℝ))).sum / (weightSum : ℝ)
          let damping : ℝ := 0.1
          some ⟨currentVector.x + damping * (wx - currentVector.x),
                currentVector.y + damping * (wy - currentVector.y),
                currentVector.z + damping * (wz - currentVector.z),
                currentVector.temporal + damping * (wt - currentVector.temporal),
                currentVector.symbolic + damping * (ws - currentVector.symbolic)⟩
        else none
    match weighted with
    | some v => v
    | none =>
      let decay : ℝ := 0.95
      ⟨currentVector.x * decay, currentVector.y * decay, currentVector.z * decay,
       currentVector.temporal * decay, currentVector.symbolic * decay⟩
  else if computationType = "spiral_drift" then
    let angle := currentVector.magnitude * 0.1
    ⟨currentVector.x * 0.9 + 0.1 * Real.cos angle,
     currentVector.y * 0.9 + 0.1 * Real.sin angle,
     currentVector.z * 0.98,
     currentVector.temporal + 0.01,
     currentVector.symbolic * 1.01⟩
  else currentVector

/-- The per-recursion state dict built by `start_recursive_computation`. -/
structure RecursionState where
  currentVector : ScrollVector
  computationType : String
  iteration : ℕ
  maxIterations : ℕ
  history : List ScrollVector
  convergenceThreshold : ℝ
  status : String

/-- The state dict as `start_recursive_computation` initialises it. -/
def initialRecursionState (initialVector : ScrollVector) (computationType : String)
    (maxIterations : ℕ) : RecursionState where
  currentVector := initialVector
  computationType := computationType
  iteration := 0
  maxIterations := maxIterations
  history := [initialVector]
  convergenceThreshold := 1e-6
  status := "running"

/-- `MemoryRecursionManager._execute_recursive_computation`: the
cooperative loop, with fuel bounding the recursion (any fuel above
`maxIterations - iteration` is enough, since each non-terminal pass
increments the iteration counter).  `contentOf i v` stands for
`str({"iteration": i, "vector": v})` and `fragIdOf i` for the generated
fragment id of iteration `i`; a store that raises aborts the loop task,
leaving the state as mutated so far. -/
noncomputable def runRecursion (contentOf : ℕ → ScrollVector → String)
    (fragIdOf : ℕ → String) (now : ℚ) :
    ℕ → ManagerState → RecursionState → ManagerState × RecursionState
  | 0, mst, rst => (mst, rst)
  | fuel + 1, mst, rst =>
    if rst.iteration < rst.maxIterations ∧ rst.status = "running" then
      let currentVector := rst.currentVector
      let retrieved := retrieveMemoryFragments mst currentVector 5 0.3 now
      let nextVector := computeNextIteration currentVector retrieved.2 rst.computationType
      let diff := ScrollVector.sub nextVector currentVector
      if diff.magnitude < rst.convergenceThreshold then
        (retrieved.1, { rst with status := "converged" })
      else
        let rst1 := { rst with
          currentVector := nextVector
          history := rst.history ++ [nextVector]
          iteration := rst.iteration + 1 }
        let stored := storeMemoryFragment retrieved.1 (contentOf rst1.iteration nextVector)
            nextVector (1 / 2) none (fragIdOf rst1.iteration) now
        match stored.2 with
        | Except.ok _ => runRecursion contentOf fragIdOf now fuel stored.1 rst1
        | Except.error _ => (stored.1, rst1)
    else
      (mst, if rst.status = "running" then { rst with status := "max_iterations_reached" } else rst)

/-! ### Mesh scheduler (`mesh_orchestrator.py`) -/

/-- `CodexDriftField` from `scrollmath_engine.py` (creation timestamp
omitted: nothing the claims touch reads it). -/
structure CodexDriftField where
  vectors : List ScrollVector
  driftCoefficient : ℝ
  fieldStrength : ℝ
  temporalDecay : ℝ

/-- `CodexDriftField.compute_field_gradient`: componentwise mean of the
field's vectors, zero for an empty field. -/
noncomputable def CodexDriftField.computeFieldGradient (f : CodexDriftField) : ScrollVector :=
  match f.vectors with
  | [] => ScrollVector.zero
  | _ =>
    let n : ℝ := f.vectors.length
    ⟨(f.vectors.map (fun v => v.x)).sum / n,
     (f.vectors.map (fun v => v.y)).sum / n,
     (f.vectors.map (fun v => v.z)).sum / n,
     (f.vectors.map (fun v => v.temporal)).sum / n,
     (f.vectors.map (fun v => v.symbolic)).sum / n⟩

/-- `ScrollMathEngine.compute_5d_transform`: apply the field gradient
scaled by the drift coefficient (spatial axes) and field strength
(temporal/symbolic axes), then normalize. -/
noncomputable def compute5dTransform (field : CodexDriftField) (targetVector : ScrollVector) :
    ScrollVector :=
  let gradient := field.computeFieldGradient
  ScrollVector.normalize
    ⟨targetVector.x + gradient.x * field.driftCoefficient,
     targetVector.y + gradient.y * field.driftCoefficient,
     targetVector.z + gradient.z * field.driftCoefficient,
     targetVector.temporal + gradient.temporal * field.fieldStrength,
     targetVector.symbolic + gradient.symbolic * field.fieldStrength⟩

/-- `MeshNodeState`: states of a mesh node. -/
inductive MeshNodeState where
  | initializing
  | active
  | computing
  | synchronizing
  | dormant
  | error
deriving DecidableEq

/-- `MeshNode` (assigned-task list omitted: no claim touches it). -/
structure MeshNode where
  nodeId : String
  position : ScrollVector
  state : MeshNodeState
  computeCapacity : ℝ
  fieldAffinity : ℝ
  lastHeartbeat : ℚ

/-- `MeshNode.is_healthy`: heartbeat age strictly below the timeout
(default 30 seconds). -/
def MeshNode.isHealthy (node : MeshNode) (now : ℚ) (timeoutSeconds : ℚ) : Bool :=
  decide (now - node.lastHeartbeat < timeoutSeconds)

/-- `MeshOrchestrator._calculate_position_resonance`: inverse distance,
`1 / (1 + distance)`. -/
noncomputable def calculatePositionResonance (pos1 pos2 : ScrollVector) : ℝ :=
  1 / (1 + (ScrollVector.sub pos1 pos2).magnitude)

/-- `MeshOrchestrator._select_task_nodes`: score every healthy active
node by `fieldAffinity * positionResonance * computeCapacity`, sort
descending (stably) and keep the top 3 ids. -/
noncomputable def selectTaskNodes (nodes : List MeshNode) (inputField : CodexDriftField)
    (now : ℚ) : List String :=
  let availableNodes := nodes.filter fun n =>
    decide (n.state = MeshNodeState.active) && n.isHealthy now 30
  let nodeScores := availableNodes.map fun node =>
    let fieldGradient := inputField.computeFieldGradient
    let positionAffinity := calculatePositionResonance node.position fieldGradient
    (node.nodeId, node.fieldAffinity * positionAffinity * node.computeCapacity)
  let sorted := sortDescBy (fun p => p.2) nodeScores
  (sorted.take 3).map fun p => p.1

/-- The per-node `field_transform` subtask result of
`MeshOrchestrator._compute_subtask`: the node id and the transformed
vector. -/
noncomputable def computeSubtaskFieldTransform (field : CodexDriftField) (node : MeshNode) :
    String × ScrollVector :=
  (node.nodeId, compute5dTransform field node.position)

/-- The subtask fan-out of `MeshOrchestrator._execute_mesh_task` for a
`field_transform` task: each target id present in the node registry
contributes one transformed vector, in target order. -/
noncomputable def fieldTransformResults (nodes : List MeshNode) (targetNodes : List String)
    (field : CodexDriftField) : List (String × ScrollVector) :=
  (targetNodes.filterMap fun nodeId => nodes.find? fun n => n.nodeId == nodeId).map
    fun node => computeSubtaskFieldTransform field node

/-- `MeshOrchestrator._aggregate_subtask_results` for `field_transform`:
componentwise mean of the transformed vectors plus the contributing node
ids; `None` when there are no results. -/
noncomputable def aggregateFieldTransform (results : List (String × ScrollVector)) :
    Option (ScrollVector × List String) :=
  match results with
  | [] => none
  | _ =>
    let n : ℝ := results.length
    some (⟨(results.map (fun r => r.2.x)).sum / n,
           (results.map (fun r => r.2.y)).sum / n,
           (results.map (fun r => r.2.z)).sum / n,
           (results.map (fun r => r.2.temporal)).sum / n,
           (results.map (fun r => r.2.symbolic)).sum / n⟩,
          results.map (fun r => r.1))

/-- The full `submit_mesh_task` / `_execute_mesh_task` pipeline for a
`field_transform` task: node selection, per-node transforms, and the
aggregated task result. -/
noncomputable def executeFieldTransformTask (nodes : List MeshNode)
    (inputField : CodexDriftField) (now : ℚ) :
    List String × Option (ScrollVector × List String) :=
  let targetNodes := selectTaskNodes nodes inputField now
  let results := fieldTransformResults nodes targetNodes inputField
  (targetNodes, aggregateFieldTransform results)

/-- The node-registry part of the `MeshOrchestrator` state. -/
structure OrchestratorState where
  maxNodes : ℕ
  nodes : List MeshNode

/-- `MeshOrchestrator.add_mesh_node`: raises `RuntimeError` when the
registry is at its `max_nodes` cap; otherwise registers the node, and
`_integrate_node` (whose computed neighbour resonances are discarded)
marks it active. -/
noncomputable def addMeshNode (st : OrchestratorState) (nodeId : String)
    (position : ScrollVector) (computeCapacity fieldAffinity : ℝ) (now : ℚ) :
    OrchestratorState × Except String String :=
  if st.maxNodes ≤ st.nodes.length then
    (st, Except.error "RuntimeError: Maximum mesh node limit reached")
  else
    let node : MeshNode :=
      { nodeId := nodeId, position := position, state := MeshNodeState.active,
        computeCapacity := computeCapacity, fieldAffinity := fieldAffinity,
        lastHeartbeat := now }
    ({ st with nodes := st.nodes ++ [node] }, Except.ok nodeId)

/-! ### Agent registry (`agent_activator.py`) -/

/-- The slice of a live `Agent` the population-cap claims read: its id
and its `last_activity` timestamp (set to the activation instant by
`Agent.activate`). -/
structure AgentRec where
  agentId : String
  lastActivity : ℚ
deriving DecidableEq

/-- The agent-registry part of the `AgentActivator` state: the dict of
live agents in insertion order. -/
structure ActivatorState where
  maxAgents : ℕ
  agents : List AgentRec
deriving DecidableEq

/-- `AgentActivator._cleanup_inactive_agents`: remove the first `count`
agents of the registry stably sorted by `last_activity` ascending. -/
def cleanupInactiveAgents (st : ActivatorState) (count : ℕ) : ActivatorState :=
  if st.agents = [] then st
  else
    let agentsByActivity := sortAscBy (fun a => a.lastActivity) st.agents
    let toRemove := (agentsByActivity.take count).map fun a => a.agentId
    { st with agents := st.agents.filter fun a => decide (a.agentId ∉ toRemove) }

/-- `AgentActivator.activate_agent` for a registered profile: when the
registry is at the `max_agents` cap, first evict via
`_cleanup_inactive_agents(1)`; then the freshly created agent (whose
generated uuid id is passed in as `agentId`) activates successfully and
is added with `last_activity = now`. -/
def activateAgent (st : ActivatorState) (agentId : String) (now : ℚ) : ActivatorState :=
  let st1 := if st.maxAgents ≤ st.agents.length then cleanupInactiveAgents st 1 else st
  { st1 with agents := st1.agents ++ [{ agentId := agentId, lastActivity := now }] }

/-- A sequence of `activate_agent` calls, one per (id, activation time). -/
def activateSeq (st : ActivatorState) (l : List (String × ℚ)) : ActivatorState :=
  l.foldl (fun st p => activateAgent st p.1 p.2) st

/-! ### Spec-side definition for the depth-selection claim -/

/-- Modelled from the spec: claim C4's stated depth formula
`clamp(round((complexity(content) + magnitude(contextVector)) * maxDepth),
0, maxDepth-1)`, with `complexity` the length-based score
`len(str(content)) / 1000` and `round` rounding to the nearest integer. -/
noncomputable def claimedOptimalDepth (maxDepth : ℕ) (content : String)
    (contextVector : ScrollVector) : ℤ :=
  let complexity : ℝ := (content.length : ℝ) / 1000
  let rounded := ⌊(complexity + contextVector.magnitude) * (maxDepth : ℝ) + 1 / 2⌋
  min (max 0 rounded) ((maxDepth : ℤ) - 1)

/-! ### View projections: the fragment data the similarity, sorting and
depth logic reads, invariant under the link-rewiring of
`_create_recursive_connections` -/

/-- The id, context vector, importance and access count of a fragment:
everything except the parent/child link lists. -/
def fragView (f : MemoryFragment) : String × ScrollVector × ℚ × ℕ :=
  (f.fragmentId, f.contextVector, f.importance, f.accessCount)

/-- A layer up to link-rewiring of its fragments. -/
def layerView (L : RecursionLayer) :
    String × ℕ × ℝ × ℕ × List (String × ScrollVector × ℚ × ℕ) :=
  (L.layerId, L.depth, L.coherenceThreshold, L.maxFragments, L.fragments.map fragView)

theorem fragView_appendChildTo (l : List MemoryFragment) (ids : List String) (c : String) :
    (appendChildTo l ids c).map fragView = l.map fragView := by
  rw [appendChildTo, List.map_map]
  apply List.map_congr_left
  intro g _
  simp only [Function.comp]
  by_cases h : ids.contains g.fragmentId = true
  · rw [if_pos h]
    rfl
  · rw [if_neg h]

theorem fragView_setParents (l : List MemoryFragment) (fragId : String) (ps : List String) :
    (setParents l fragId ps).map fragView = l.map fragView := by
  rw [setParents, List.map_map]
  apply List.map_congr_left
  intro g _
  simp only [Function.comp]
  by_cases h : g.fragmentId = fragId
  · rw [if_pos h]
    rfl
  · rw [if_neg h]

theorem set_of_getElem?_eq {α : Type _} (l : List α) (i : ℕ) (x : α)
    (h : l[i]? = some x) : l.set i x = l := by
  have hi : i < l.length := by
    by_contra hc
    rw [List.getElem?_eq_none (le_of_not_lt hc)] at h
    cases h
  apply List.ext_getElem?
  intro j
  by_cases hij : i = j
  · subst hij
    rw [List.getElem?_set_self hi, ← h]
  · rw [List.getElem?_set_ne hij]

theorem layerView_keeps_fields (L : RecursionLayer) (frags : List MemoryFragment)
    (h : frags.map fragView = L.fragments.map fragView) :
    layerView { L with fragments := frags } = layerView L := by
  rw [layerView, layerView]
  simp [h]

theorem pytrunc_of_nonneg {x : ℝ} (h : 0 ≤ x) : pytrunc x = ⌊x⌋ := by
  rw [pytrunc, if_pos h]

theorem calculateOptimalDepth_nonneg (maxDepth : ℕ) (content : String) (cv : ScrollVector)
    (hmax : 1 ≤ maxDepth) : 0 ≤ calculateOptimalDepth maxDepth content cv := by
  rw [calculateOptimalDepth]
  refine le_min (le_max_left 0 _) ?_
  omega

theorem calculateOptimalDepth_lt (maxDepth : ℕ) (content : String) (cv : ScrollVector)
    (hmax : 1 ≤ maxDepth) :
    (calculateOptimalDepth maxDepth content cv).toNat < maxDepth := by
  have h1 : calculateOptimalDepth maxDepth content cv ≤ (maxDepth : ℤ) - 1 := by
    rw [calculateOptimalDepth]
    exact min_le_right _ _
  omega

/-- `connectParentLayer` only rewires child links: the view of every
layer is unchanged. -/
theorem connectParentLayer_view (layers1 : List RecursionLayer) (d : ℕ) (pl : List String)
    (cid : String)
    (target : List (String × ℕ × ℝ × ℕ × List (String × ScrollVector × ℚ × ℕ)))
    (hbase : layers1.map layerView = target) :
    (connectParentLayer layers1 d pl cid).map layerView = target := by
  rw [connectParentLayer]
  cases hP : layers1[d]? with
  | none => exact hbase
  | some P =>
    rw [List.map_set, hbase]
    apply set_of_getElem?_eq
    rw [layerView_keeps_fields P _ (fragView_appendChildTo _ _ _)]
    rw [← hbase, List.getElem?_map, hP, Option.map_some']

/-- `_create_recursive_connections` at a valid depth succeeds and only
rewires parent/child links: every layer's view is unchanged. -/
theorem createRecursiveConnections_ok_view (st : ManagerState) (f : MemoryFragment)
    (depth : ℤ) (h0 : 0 ≤ depth) (hlt : depth.toNat < st.layers.length) :
    ∃ st', createRecursiveConnections st f depth = (st', Except.ok ()) ∧
      st'.maxRecursionDepth = st.maxRecursionDepth ∧
      st'.layers.map layerView = st.layers.map layerView := by
  obtain ⟨L, hL⟩ : ∃ L, st.layers[depth.toNat]? = some L :=
    ⟨_, List.getElem?_eq_getElem hlt⟩
  rw [createRecursiveConnections, if_neg (not_lt.mpr h0), hL]
  refine ⟨_, rfl, rfl, ?_⟩
  have hlayers1 : ∀ (links ps : List String),
      (st.layers.set depth.toNat
        { L with fragments :=
            setParents (appendChildTo L.fragments links f.fragmentId) f.fragmentId ps }).map
          layerView = st.layers.map layerView := by
    intro links ps
    rw [List.map_set]
    apply set_of_getElem?_eq
    rw [layerView_keeps_fields L _
      (by rw [fragView_setParents, fragView_appendChildTo])]
    rw [List.getElem?_map, hL, Option.map_some']
  by_cases hd : 0 < depth
  · simp only [hd, if_true]
    exact connectParentLayer_view _ _ _ _ _ (hlayers1 _ _)
  · simp only [hd, if_false]
    exact hlayers1 _ _

/-- `store_memory_fragment` at a valid effective depth succeeds: the
target layer gains the fresh fragment via `add_fragment`, every other
layer keeps its view. -/
theorem storeMemoryFragment_ok_view (st : ManagerState) (content : String)
    (cv : ScrollVector) (imp : ℚ) (targetDepth : Option ℤ) (id : String) (now : ℚ)
    (td : ℤ)
    (htd : td = min (targetDepth.getD (calculateOptimalDepth st.maxRecursionDepth content cv))
      ((st.maxRecursionDepth : ℤ) - 1))
    (h0 : 0 ≤ td) (hlt : td.toNat < st.layers.length) :
    ∃ st', storeMemoryFragment st content cv imp targetDepth id now = (st', Except.ok id) ∧
      st'.maxRecursionDepth = st.maxRecursionDepth ∧
      st'.layers.length = st.layers.length ∧
      (∀ j, j ≠ td.toNat → st'.layers[j]?.map layerView = st.layers[j]?.map layerView) ∧
      st'.layers[td.toNat]?.map layerView =
        st.layers[td.toNat]?.map fun L =>
          layerView (L.addFragment (freshFragment content cv imp id now)) := by
  obtain ⟨L, hL⟩ : ∃ L, st.layers[td.toNat]? = some L :=
    ⟨_, List.getElem?_eq_getElem hlt⟩
  have hstore : storeIntoLayer st td.toNat (freshFragment content cv imp id now) =
      ⟨st.maxRecursionDepth, st.layers.set td.toNat
        (L.addFragment (freshFragment content cv imp id now))⟩ := by
    rw [storeIntoLayer, hL]
  rw [storeMemoryFragment, ← htd, if_neg (not_lt.mpr h0), hstore]
  have hlt1 : td.toNat < ((⟨st.maxRecursionDepth, st.layers.set td.toNat
      (L.addFragment (freshFragment content cv imp id now))⟩ : ManagerState)).layers.length := by
    simpa using hlt
  obtain ⟨st2, hc, hmax2, hview2⟩ := createRecursiveConnections_ok_view
    ⟨st.maxRecursionDepth, st.layers.set td.toNat
      (L.addFragment (freshFragment content cv imp id now))⟩
    (freshFragment content cv imp id now) td h0 hlt1
  rw [hc]
  have hlen2 : st2.layers.length = st.layers.length := by
    have := congrArg List.length hview2
    simpa using this
  refine ⟨st2, rfl, by simpa using hmax2, hlen2, ?_, ?_⟩
  · intro j hj
    have h1 : st2.layers[j]?.map layerView = (st2.layers.map layerView)[j]? :=
      (List.getElem?_map _ _ _).symm
    rw [h1, hview2, List.getElem?_map]
    simp only [List.getElem?_set_ne (fun h => hj h.symm)]
  · have h1 : st2.layers[td.toNat]?.map layerView = (st2.layers.map layerView)[td.toNat]? :=
      (List.getElem?_map _ _ _).symm
    rw [h1, hview2, List.getElem?_map]
    rw [List.getElem?_set_self hlt, hL]
    rfl

/-! ### Claim C2: layer capacity and eviction -/

theorem upsertFragment_length_le (l : List MemoryFragment) (f : MemoryFragment) :
    (upsertFragment l f).length ≤ l.length + 1 := by
  rw [upsertFragment]
  by_cases h : l.any (fun g => g.fragmentId = f.fragmentId)
  · rw [if_pos h, List.length_map]
    omega
  · rw [if_neg h, List.length_append]
    simp

theorem length_filter_lt_of_mem_not {α : Type _} {p : α → Bool} {l : List α} {m : α}
    (hm : m ∈ l) (hpm : p m = false) : (l.filter p).length < l.length := by
  induction l with
  | nil => cases hm
  | cons a l ih =>
    rw [List.filter_cons]
    rcases List.mem_cons.mp hm with h | h
    · subst h
      rw [hpm]
      simp only [Bool.false_eq_true, if_false, List.length_cons]
      exact Nat.lt_succ_of_le (List.length_filter_le p l)
    · by_cases hp : p a = true
      · rw [if_pos hp]
        simpa using Nat.succ_lt_succ (ih h)
      · rw [if_neg hp]
        exact Nat.lt_trans (ih h) (Nat.lt_succ_self _)

theorem addFragment_maxFragments (layer : RecursionLayer) (f : MemoryFragment) :
    (layer.addFragment f).maxFragments = layer.maxFragments := rfl

theorem addFragment_at_capacity (layer : RecursionLayer) (f : MemoryFragment)
    (hmax : 1 ≤ layer.maxFragments)
    (hlen : layer.fragments.length = layer.maxFragments) :
    ∃ m ∈ layer.fragments,
      (∀ g ∈ layer.fragments,
        m.importance * (m.accessCount : ℚ) ≤ g.importance * (g.accessCount : ℚ)) ∧
      (layer.addFragment f).fragments =
        upsertFragment (layer.fragments.filter fun g => g.fragmentId ≠ m.fragmentId) f := by
  have hne : layer.fragments ≠ [] := by
    intro h
    rw [h] at hlen
    simp at hlen
    omega
  obtain ⟨m, hm⟩ := pyMinBy_isSome (fun g => g.importance * (g.accessCount : ℚ)) hne
  refine ⟨m, pyMinBy_mem _ hm, pyMinBy_le _ hm, ?_⟩
  rw [RecursionLayer.addFragment]
  simp only [if_pos (le_of_eq hlen.symm), hm]

theorem addFragment_below_capacity (layer : RecursionLayer) (f : MemoryFragment)
    (hlen : layer.fragments.length < layer.maxFragments) :
    (layer.addFragment f).fragments = upsertFragment layer.fragments f := by
  rw [RecursionLayer.addFragment]
  simp only [if_neg (not_le.mpr hlen)]

theorem addFragment_length_le (layer : RecursionLayer) (f : MemoryFragment)
    (hmax : 1 ≤ layer.maxFragments)
    (hlen : layer.fragments.length ≤ layer.maxFragments) :
    (layer.addFragment f).fragments.length ≤ layer.maxFragments := by
  by_cases hc : layer.maxFragments ≤ layer.fragments.length
  · have hlen' : layer.fragments.length = layer.maxFragments := le_antisymm hlen hc
    obtain ⟨m, hmem, _, heq⟩ := addFragment_at_capacity layer f hmax hlen'
    rw [heq]
    have h1 := upsertFragment_length_le
      (layer.fragments.filter fun g => g.fragmentId ≠ m.fragmentId) f
    have h2 : ((layer.fragments.filter fun g => g.fragmentId ≠ m.fragmentId)).length <
        layer.fragments.length :=
      length_filter_lt_of_mem_not hmem (by simp)
    omega
  · push_neg at hc
    rw [addFragment_below_capacity layer f hc]
    have := upsertFragment_length_le layer.fragments f
    omega

/-- Claim C2: for every recursion layer with positive capacity (all
initialised layers have capacity at least 100) whose count starts at or
below capacity, no sequence of insertions pushes the count above
`max_fragments`; and an insertion into a layer exactly at capacity first
evicts a fragment of minimal `importance * access_count`, the new
contents being the old ones minus that fragment, with the new fragment
inserted. -/
theorem layer_capacity_eviction_invariant (layer : RecursionLayer)
    (fs : List MemoryFragment) (hmax : 1 ≤ layer.maxFragments)
    (hlen : layer.fragments.length ≤ layer.maxFragments) :
    (fs.foldl RecursionLayer.addFragment layer).fragments.length ≤ layer.maxFragments ∧
    (∀ f : MemoryFragment, layer.fragments.length = layer.maxFragments →
      ∃ m ∈ layer.fragments,
        (∀ g ∈ layer.fragments,
          m.importance * (m.accessCount : ℚ) ≤ g.importance * (g.accessCount : ℚ)) ∧
        (layer.addFragment f).fragments =
          upsertFragment (layer.fragments.filter fun g => g.fragmentId ≠ m.fragmentId) f) := by
  constructor
  · induction fs generalizing layer with
    | nil => simpa using hlen
    | cons f fs ih =>
      rw [List.foldl_cons]
      have h1 := addFragment_length_le layer f hmax hlen
      have h2 := ih (layer.addFragment f)
        (by rw [addFragment_maxFragments]; exact hmax)
        (by rw [addFragment_maxFragments]; exact h1)
      rwa [addFragment_maxFragments] at h2
  · intro f hcap
    exact addFragment_at_capacity layer f hmax hcap

/-- A concrete fragment for witness scenarios. -/
def mkPlainFragment (id : String) (imp : ℚ) (acc : ℕ) : MemoryFragment where
  fragmentId := id
  content := ""
  contextVector := ScrollVector.zero
  timestamp := 0
  accessCount := acc
  importance := imp
  parentFragments := []
  childFragments := []

/-- A concrete two-fragment layer at capacity 2 for the C2 witness. -/
def c2Layer : RecursionLayer where
  layerId := "layer_0"
  depth := 0
  fragments := [mkPlainFragment "g1" 2 1, mkPlainFragment "g2" 1 1]
  coherenceThreshold := 0.5
  maxFragments := 2

/-- Claim C2, witness: inserting a third fragment into the concrete
two-fragment layer at capacity 2 keeps the count at 2 and evicts a
minimal-key fragment. -/
theorem layer_capacity_eviction_invariant_witness :
    ([mkPlainFragment "g3" 1 0].foldl RecursionLayer.addFragment c2Layer).fragments.length ≤
      c2Layer.maxFragments ∧
    ∃ m ∈ c2Layer.fragments,
      (∀ g ∈ c2Layer.fragments,
        m.importance * (m.accessCount : ℚ) ≤ g.importance * (g.accessCount : ℚ)) ∧
      (c2Layer.addFragment (mkPlainFragment "g3" 1 0)).fragments =
        upsertFragment (c2Layer.fragments.filter fun g => g.fragmentId ≠ m.fragmentId)
          (mkPlainFragment "g3" 1 0) := by
  have h := layer_capacity_eviction_invariant c2Layer [mkPlainFragment "g3" 1 0]
    (by norm_num [c2Layer]) (by norm_num [c2Layer])
  exact ⟨h.1, h.2 _ (by norm_num [c2Layer])⟩

/-! ### Claim C6: agent population cap and least-recently-active eviction -/

theorem activateSeq_nil (st : ActivatorState) : activateSeq st [] = st := rfl

theorem activateSeq_cons (st : ActivatorState) (a : String × ℚ) (seq : List (String × ℚ)) :
    activateSeq st (a :: seq) = activateSeq (activateAgent st a.1 a.2) seq := rfl

theorem activateSeq_append (st : ActivatorState) (l1 l2 : List (String × ℚ)) :
    activateSeq st (l1 ++ l2) = activateSeq (activateSeq st l1) l2 := by
  rw [activateSeq, activateSeq, activateSeq, List.foldl_append]

theorem activateAgent_below (st : ActivatorState) (id : String) (t : ℚ)
    (h : st.agents.length < st.maxAgents) :
    activateAgent st id t = { st with agents := st.agents ++ [⟨id, t⟩] } := by
  rw [activateAgent]
  simp [if_neg (not_le.mpr h)]

theorem activateSeq_of_room (seq : List (String × ℚ)) (st : ActivatorState)
    (h : st.agents.length + seq.length ≤ st.maxAgents) :
    activateSeq st seq = { st with agents := st.agents ++ seq.map fun p => ⟨p.1, p.2⟩ } := by
  induction seq generalizing st with
  | nil => simp [activateSeq_nil]
  | cons a seq ih =>
    rw [activateSeq_cons]
    have h' : st.agents.length + 1 + seq.length ≤ st.maxAgents := by
      simp only [List.length_cons] at h
      omega
    have hlt : st.agents.length < st.maxAgents := by omega
    rw [activateAgent_below st a.1 a.2 hlt]
    rw [ih { st with agents := st.agents ++ [⟨a.1, a.2⟩] }
      (by simp only [List.length_append, List.length_cons, List.length_nil]; omega)]
    simp

theorem activateAgent_at_cap (st : ActivatorState) (id : String) (t : ℚ)
    (hlen : st.agents.length = st.maxAgents) (hmax : 1 ≤ st.maxAgents)
    (hsorted : st.agents.Pairwise (fun a b => a.lastActivity ≤ b.lastActivity))
    (hids : (st.agents.map AgentRec.agentId).Nodup) :
    activateAgent st id t = { st with agents := st.agents.tail ++ [⟨id, t⟩] } := by
  rw [activateAgent]
  rw [if_pos (le_of_eq hlen.symm)]
  cases hag : st.agents with
  | nil =>
    rw [hag] at hlen
    simp at hlen
    omega
  | cons hd rest =>
    rw [cleanupInactiveAgents, if_neg (by simp [hag])]
    have hsort : sortAscBy (fun a => a.lastActivity) st.agents = st.agents :=
      sortAscBy_eq_self _ hsorted
    rw [hsort, hag]
    have hhd : ∀ r ∈ rest, r.agentId ≠ hd.agentId := by
      intro r hr
      rw [hag] at hids
      simp only [List.map_cons, List.nodup_cons, List.mem_map] at hids
      intro hcontra
      exact hids.1 ⟨r, hr, hcontra⟩
    have hfilter : (hd :: rest).filter
        (fun a => decide (a.agentId ∉ ((hd :: rest).take 1).map AgentRec.agentId)) = rest := by
      rw [List.filter_cons]
      simp only [List.take_succ_cons, List.take_zero, List.map_cons, List.map_nil,
        List.mem_cons, List.not_mem_nil, or_false, decide_not]
      rw [if_neg (by simp)]
      refine List.filter_eq_self.mpr ?_
      intro r hr
      simp [hhd r hr]
    simp only [hag] at hfilter ⊢
    rw [hfilter]
    simp

/-- Claim C6: activating `maxAgents + 1` profiles in sequence (fresh
uuids, strictly increasing activation instants) leaves exactly
`maxAgents` live agents — the sequence minus its first element — and
the removed agent is the first-activated one, the strictly
least-recently-active agent at eviction time. -/
theorem agent_cap_eviction (maxAgents : ℕ) (seq : List (String × ℚ))
    (hmax : 1 ≤ maxAgents)
    (hlen : seq.length = maxAgents + 1)
    (htimes : seq.Pairwise (fun p q => p.2 < q.2))
    (hids : (seq.map Prod.fst).Nodup) :
    (activateSeq ⟨maxAgents, []⟩ seq).agents =
      (seq.drop 1).map (fun p => { agentId := p.1, lastActivity := p.2 }) ∧
    (activateSeq ⟨maxAgents, []⟩ seq).agents.length = maxAgents ∧
    (∀ a ∈ seq.take 1, (∀ p ∈ seq.drop 1, a.2 < p.2) ∧
      ({ agentId := a.1, lastActivity := a.2 } : AgentRec) ∉
        (activateSeq ⟨maxAgents, []⟩ seq).agents) := by
  have hsplit : seq = seq.take maxAgents ++ seq.drop maxAgents :=
    (List.take_append_drop maxAgents seq).symm
  have hlentake : (seq.take maxAgents).length = maxAgents := by
    rw [List.length_take]
    omega
  have hlendrop : (seq.drop maxAgents).length = 1 := by
    rw [List.length_drop, hlen]
    omega
  obtain ⟨l0, hl0⟩ := List.length_eq_one.mp hlendrop
  have h1 : activateSeq ⟨maxAgents, []⟩ (seq.take maxAgents) =
      ⟨maxAgents, (seq.take maxAgents).map fun p => ⟨p.1, p.2⟩⟩ := by
    have := activateSeq_of_room (seq.take maxAgents) ⟨maxAgents, []⟩ (by simp [hlentake])
    simpa using this
  have hmid : activateSeq ⟨maxAgents, []⟩ seq =
      activateAgent ⟨maxAgents, (seq.take maxAgents).map fun p => ⟨p.1, p.2⟩⟩ l0.1 l0.2 := by
    conv_lhs => rw [hsplit]
    rw [activateSeq_append, h1, hl0]
    rfl
  have hcap : activateAgent
        (⟨maxAgents, (seq.take maxAgents).map fun p => ⟨p.1, p.2⟩⟩ : ActivatorState)
        l0.1 l0.2 =
      ⟨maxAgents, ((seq.take maxAgents).map fun p => (⟨p.1, p.2⟩ : AgentRec)).tail ++
        [⟨l0.1, l0.2⟩]⟩ := by
    refine activateAgent_at_cap _ _ _
      (by simp only [List.length_map, List.length_take]; omega) hmax ?_ ?_
    · rw [List.pairwise_map]
      exact ((htimes.sublist (List.take_sublist maxAgents seq)).imp fun h => le_of_lt h)
    · have : ((seq.take maxAgents).map fun p => (⟨p.1, p.2⟩ : AgentRec)).map
          AgentRec.agentId = (seq.take maxAgents).map Prod.fst := by
        rw [List.map_map]
        rfl
      rw [this, List.map_take]
      exact List.Nodup.sublist (List.take_sublist maxAgents _) hids
  have hfinal : (activateSeq ⟨maxAgents, []⟩ seq).agents =
      (seq.drop 1).map fun p => (⟨p.1, p.2⟩ : AgentRec) := by
    rw [hmid, hcap]
    have hne : seq.take maxAgents ≠ [] := by
      intro h
      rw [h] at hlentake
      simp at hlentake
      omega
    obtain ⟨n, rfl⟩ : ∃ n, maxAgents = n + 1 := ⟨maxAgents - 1, by omega⟩
    obtain ⟨a, rest, rfl⟩ : ∃ a rest, seq = a :: rest := by
      cases seq with
      | nil => simp at hlen
      | cons x xs => exact ⟨x, xs, rfl⟩
    simp only [List.take_succ_cons, List.map_cons, List.tail_cons, List.drop_succ_cons,
      List.drop_zero] at hl0 ⊢
    have hrest : rest = rest.take n ++ [l0] := by
      conv_lhs => rw [← List.take_append_drop n rest]
      rw [hl0]
    conv_rhs => rw [hrest]
    simp
  refine ⟨hfinal, ?_, ?_⟩
  · rw [hfinal, List.length_map, List.length_drop, hlen]
    omega
  · intro a ha
    obtain ⟨a0, rest, hseq⟩ : ∃ a0 rest, seq = a0 :: rest := by
      cases seq with
      | nil => simp at hlen
      | cons x xs => exact ⟨x, xs, rfl⟩
    subst hseq
    simp only [List.take_succ_cons, List.take_zero, List.mem_cons, List.not_mem_nil,
      or_false] at ha
    subst ha
    constructor
    · intro p hp
      simp only [List.drop_succ_cons, List.drop_zero] at hp
      exact (List.pairwise_cons.mp htimes).1 p hp
    · rw [hfinal]
      simp only [List.drop_succ_cons, List.drop_zero, List.mem_map, not_exists]
      rintro p ⟨hp, hcontra⟩
      simp only [List.map_cons, List.nodup_cons, List.mem_map] at hids
      have : p.1 = a.1 := congrArg AgentRec.agentId hcontra
      exact hids.1 ⟨p, hp, this⟩

/-- Claim C6, witness: with `maxAgents = 2`, activating three profiles
at instants 0, 1, 2 leaves the second and third agents live and evicts
the first. -/
theorem agent_cap_eviction_witness :
    (activateSeq ⟨2, []⟩ [("a", 0), ("b", 1), ("c", 2)]).agents =
      [⟨"b", 1⟩, ⟨"c", 2⟩] ∧
    (activateSeq ⟨2, []⟩ [("a", 0), ("b", 1), ("c", 2)]).agents.length = 2 ∧
    (⟨"a", 0⟩ : AgentRec) ∉ (activateSeq ⟨2, []⟩ [("a", 0), ("b", 1), ("c", 2)]).agents := by
  have h := agent_cap_eviction 2 [("a", 0), ("b", 1), ("c", 2)]
    (by norm_num) (by norm_num) (by norm_num) (by simp)
  refine ⟨by simpa using h.1, h.2.1, ?_⟩
  have := (h.2.2 ("a", 0) (by simp)).2
  simpa using this

/-! ### Claim C8: behaviour of `add_mesh_node` at the registry cap -/

theorem addMeshNode_cases (st : OrchestratorState) (nodeId : String)
    (position : ScrollVector) (computeCapacity fieldAffinity : ℝ) (now : ℚ) :
    (st.maxNodes ≤ st.nodes.length →
      addMeshNode st nodeId position computeCapacity fieldAffinity now =
        (st, Except.error "RuntimeError: Maximum mesh node limit reached")) ∧
    (st.nodes.length < st.maxNodes →
      addMeshNode st nodeId position computeCapacity fieldAffinity now =
        ({ st with nodes := st.nodes ++
            [{ nodeId := nodeId, position := position, state := MeshNodeState.active,
               computeCapacity := computeCapacity, fieldAffinity := fieldAffinity,
               lastHeartbeat := now }] }, Except.ok nodeId)) := by
  constructor
  · intro h
    rw [addMeshNode, if_pos h]
  · intro h
    rw [addMeshNode, if_neg (not_le.mpr h)]

/-- Claim C8, counterexample: with a registry of one node at cap
`max_nodes = 1`, `add_mesh_node` propagates a raised `RuntimeError` to
its caller (the state is returned unchanged beside the error); it does
not produce a `{success: false, message}` result, refuting the blanket
"no public component operation propagates a raw exception" policy. -/
theorem addMeshNode_raises_at_cap_counterexample :
    addMeshNode
        ⟨1, [{ nodeId := "core-0", position := ScrollVector.zero,
               state := MeshNodeState.active, computeCapacity := 1,
               fieldAffinity := 0.8, lastHeartbeat := 0 }]⟩
        "n2" ScrollVector.zero 1 0.5 0 =
      (⟨1, [{ nodeId := "core-0", position := ScrollVector.zero,
              state := MeshNodeState.active, computeCapacity := 1,
              fieldAffinity := 0.8, lastHeartbeat := 0 }]⟩,
       Except.error "RuntimeError: Maximum mesh node limit reached") := by
  rw [addMeshNode, if_pos (by simp)]

/-- Claim C8, amended: `add_mesh_node` called while the node registry is
at its `max_nodes` cap raises `RuntimeError("Maximum mesh node limit
reached")` to its caller, leaving the registry unchanged; below the cap
it succeeds and appends an active node.  (The original claim's
conversion of internal exceptions into `{success: false, message}`
results exists only in the out-of-scope sync connector, not in the
capsule core, whose public operations propagate raised exceptions.) -/
theorem addMeshNode_error_result (st : OrchestratorState) (nodeId : String)
    (position : ScrollVector) (computeCapacity fieldAffinity : ℝ) (now : ℚ)
    (h : st.maxNodes ≤ st.nodes.length) :
    addMeshNode st nodeId position computeCapacity fieldAffinity now =
      (st, Except.error "RuntimeError: Maximum mesh node limit reached") :=
  (addMeshNode_cases st nodeId position computeCapacity fieldAffinity now).1 h

/-- Claim C8, witness for the amended theorem: a zero-capacity registry
is at cap, and adding any node errors with the `RuntimeError` message. -/
theorem addMeshNode_error_result_witness :
    (0 : ℕ) ≤ ([] : List MeshNode).length ∧
    addMeshNode ⟨0, []⟩ "n1" ScrollVector.zero 1 0.5 0 =
      (⟨0, []⟩, Except.error "RuntimeError: Maximum mesh node limit reached") :=
  ⟨Nat.zero_le _, addMeshNode_error_result ⟨0, []⟩ "n1" ScrollVector.zero 1 0.5 0 (Nat.zero_le _)⟩

/-! ### Claims C4 and C10: depth selection and explicit-depth boundaries -/

theorem magnitude_zero : ScrollVector.zero.magnitude = 0 := by
  rw [ScrollVector.magnitude_eq_zero_iff]

theorem mem_upsertFragment_self (l : List MemoryFragment) (f : MemoryFragment) :
    f ∈ upsertFragment l f := by
  rw [upsertFragment]
  by_cases h : l.any (fun g => g.fragmentId = f.fragmentId)
  · rw [if_pos h]
    obtain ⟨g, hg, hgid⟩ := List.any_eq_true.mp h
    refine List.mem_map.mpr ⟨g, hg, ?_⟩
    rw [if_pos (of_decide_eq_true hgid)]
  · rw [if_neg h]
    exact List.mem_append_right _ (by simp)

theorem mem_addFragment_self (layer : RecursionLayer) (f : MemoryFragment) :
    f ∈ (layer.addFragment f).fragments := by
  rw [RecursionLayer.addFragment]
  by_cases h : layer.maxFragments ≤ layer.fragments.length
  · simp only [if_pos h]
    cases hmin : pyMinBy (fun g => g.importance * (g.accessCount : ℚ)) layer.fragments with
    | none => exact mem_upsertFragment_self _ _
    | some m => exact mem_upsertFragment_self _ _
  · simp only [if_neg h]
    exact mem_upsertFragment_self _ _

theorem mem_fragView_of_eq {l1 l2 : List MemoryFragment}
    (h : l1.map fragView = l2.map fragView) {g : MemoryFragment} (hg : g ∈ l2) :
    ∃ g1 ∈ l1, fragView g1 = fragView g := by
  have hmem : fragView g ∈ l1.map fragView := by
    rw [h]
    exact List.mem_map_of_mem _ hg
  obtain ⟨g1, hg1, hv⟩ := List.mem_map.mp hmem
  exact ⟨g1, hg1, hv⟩

theorem fragView_fields {g f : MemoryFragment} (h : fragView g = fragView f) :
    g.fragmentId = f.fragmentId ∧ g.contextVector = f.contextVector ∧
    g.importance = f.importance ∧ g.accessCount = f.accessCount := by
  rw [fragView, fragView, Prod.mk.injEq, Prod.mk.injEq, Prod.mk.injEq] at h
  exact ⟨h.1, h.2.1, h.2.2.1, h.2.2.2⟩

/-- Claim C4, counterexample: for a 100-character content and the zero
context vector at the default `maxDepth = 10`, the claimed formula
`clamp(round((complexity + magnitude) * maxDepth), 0, maxDepth-1)`
yields depth 1, while the code computes depth 0: the code halves the
complexity/magnitude sum before scaling and truncates instead of
rounding. -/
theorem optimal_depth_formula_counterexample :
    calculateOptimalDepth 10 (String.mk (List.replicate 100 'x')) ScrollVector.zero = 0 ∧
    claimedOptimalDepth 10 (String.mk (List.replicate 100 'x')) ScrollVector.zero = 1 := by
  have hlen : (String.mk (List.replicate 100 'x')).length = 100 := by decide
  constructor
  · rw [calculateOptimalDepth]
    rw [pytrunc_of_nonneg (by
      have h1 := ScrollVector.magnitude_nonneg ScrollVector.zero
      have h2 : (0 : ℝ) ≤ ((String.mk (List.replicate 100 'x')).length : ℝ) / 1000 := by
        positivity
      positivity)]
    rw [hlen, magnitude_zero]
    have hfl : ⌊(((100 : ℕ) : ℝ) / 1000 + 0) / 2 * ((10 : ℕ) : ℝ)⌋ = 0 := by
      rw [Int.floor_eq_iff]
      norm_num
    rw [hfl]
    norm_num
  · rw [claimedOptimalDepth, hlen, magnitude_zero]
    have hfl : ⌊(((100 : ℕ) : ℝ) / 1000 + 0) * ((10 : ℕ) : ℝ) + 1 / 2⌋ = 1 := by
      rw [Int.floor_eq_iff]
      norm_num
    rw [hfl]
    norm_num

/-- Claim C4, amended: when store is called without an explicit target
depth, the depth chosen — the layer index the fragment lands in — equals
`clamp(trunc(((complexity(content) + magnitude(contextVector)) / 2) * maxDepth), 0, maxDepth-1)`:
the code averages the complexity score and the magnitude, and truncates
instead of rounding. -/
theorem optimal_depth_placement (st : ManagerState) (content : String) (cv : ScrollVector)
    (imp : ℚ) (id : String) (now : ℚ)
    (hwf : st.layers.length = st.maxRecursionDepth)
    (hmax : 1 ≤ st.maxRecursionDepth)
    (hfresh : ∀ L ∈ st.layers, ∀ g ∈ L.fragments, g.fragmentId ≠ id) :
    calculateOptimalDepth st.maxRecursionDepth content cv =
      min (max 0 ⌊(((content.length : ℝ) / 1000 + cv.magnitude) / 2) *
        (st.maxRecursionDepth : ℝ)⌋) ((st.maxRecursionDepth : ℤ) - 1) ∧
    ∃ st', storeMemoryFragment st content cv imp none id now = (st', Except.ok id) ∧
      (∀ L', st'.layers[(calculateOptimalDepth st.maxRecursionDepth content cv).toNat]? =
          some L' → ∃ g ∈ L'.fragments, g.fragmentId = id ∧ g.contextVector = cv) ∧
      (∀ j, j ≠ (calculateOptimalDepth st.maxRecursionDepth content cv).toNat →
        ∀ L', st'.layers[j]? = some L' → ∀ g ∈ L'.fragments, g.fragmentId ≠ id) := by
  have hnn : (0 : ℝ) ≤ ((content.length : ℝ) / 1000 + cv.magnitude) / 2 *
      (st.maxRecursionDepth : ℝ) := by
    have h1 := ScrollVector.magnitude_nonneg cv
    have h2 : (0 : ℝ) ≤ (content.length : ℝ) / 1000 := by positivity
    have h3 : (0 : ℝ) ≤ ((content.length : ℝ) / 1000 + cv.magnitude) / 2 := by
      linarith
    exact mul_nonneg h3 (Nat.cast_nonneg _)
  constructor
  · rw [calculateOptimalDepth, pytrunc_of_nonneg hnn]
  · have h0 := calculateOptimalDepth_nonneg st.maxRecursionDepth content cv hmax
    have hltd := calculateOptimalDepth_lt st.maxRecursionDepth content cv hmax
    obtain ⟨st', hstore, hmax', hlen', hother, htarget⟩ :=
      storeMemoryFragment_ok_view st content cv imp none id now
        (calculateOptimalDepth st.maxRecursionDepth content cv)
        (by
          rw [Option.getD_none]
          exact (min_eq_left (by rw [calculateOptimalDepth]; exact min_le_right _ _)).symm)
        h0 (by omega)
    refine ⟨st', hstore, ?_, ?_⟩
    · intro L' hL'
      set d := (calculateOptimalDepth st.maxRecursionDepth content cv).toNat with hd
      obtain ⟨L, hL⟩ : ∃ L, st.layers[d]? = some L :=
        ⟨_, List.getElem?_eq_getElem (by omega)⟩
      rw [hL', hL] at htarget
      simp only [Option.map_some', Option.some_inj] at htarget
      have hfrv : L'.fragments.map fragView =
          (L.addFragment (freshFragment content cv imp id now)).fragments.map fragView := by
        have := congrArg (fun t => t.2.2.2.2) htarget
        simpa [layerView] using this
      obtain ⟨g, hg, hgv⟩ := mem_fragView_of_eq hfrv
        (mem_addFragment_self L (freshFragment content cv imp id now))
      obtain ⟨hid, hcv, _, _⟩ := fragView_fields hgv
      exact ⟨g, hg, hid, hcv⟩
    · intro j hj L' hL' g hg
      have hview := hother j hj
      rw [hL'] at hview
      simp only [Option.map_some'] at hview
      cases hL0 : st.layers[j]? with
      | none =>
        rw [hL0] at hview
        simp at hview
      | some L0 =>
        rw [hL0] at hview
        simp only [Option.map_some', Option.some_inj] at hview
        have hfrv : L'.fragments.map fragView = L0.fragments.map fragView := by
          have := congrArg (fun t => t.2.2.2.2) hview
          simpa [layerView] using this
        obtain ⟨g0, hg0, hg0v⟩ := mem_fragView_of_eq hfrv.symm hg
        obtain ⟨hid, _, _, _⟩ := fragView_fields hg0v
        rw [← hid]
        exact hfresh L0 (List.getElem?_mem hL0) g0 hg0

/-- Claim C4 (amended), witness: storing into a fresh single-layer
manager without an explicit depth lands the fragment in the layer the
truncated-average formula names. -/
theorem optimal_depth_placement_witness :
    (initialManagerState 1 (1/2)).layers.length =
      (initialManagerState 1 (1/2)).maxRecursionDepth ∧
    ∃ st', storeMemoryFragment (initialManagerState 1 (1/2)) "" ScrollVector.zero 1 none
        "f0" 0 = (st', Except.ok "f0") ∧
      (∀ L', st'.layers[(calculateOptimalDepth
            (initialManagerState 1 (1/2)).maxRecursionDepth "" ScrollVector.zero).toNat]? =
          some L' →
        ∃ g ∈ L'.fragments, g.fragmentId = "f0" ∧ g.contextVector = ScrollVector.zero) := by
  have hwf : (initialManagerState 1 (1/2)).layers.length =
      (initialManagerState 1 (1/2)).maxRecursionDepth := by
    rw [initialManagerState]
    simp
  have h := optimal_depth_placement (initialManagerState 1 (1/2)) "" ScrollVector.zero 1
    "f0" 0 hwf (by rw [initialManagerState]) (by
      intro L hL g hg
      rw [initialManagerState] at hL
      simp only [List.mem_map, List.mem_range] at hL
      obtain ⟨d, _, hLd⟩ := hL
      rw [← hLd] at hg
      simp at hg)
  obtain ⟨_, st', hstore, hmem, _⟩ := h
  exact ⟨hwf, st', hstore, hmem⟩

/-- Claim C10: storing with an explicitly negative target depth stores
the fragment in no layer and raises an uncaught `KeyError` (the state
is unchanged at the raise), while an explicit depth at or above
`maxDepth` is clamped to `maxDepth - 1` and the call succeeds,
returning the fragment id and placing the fragment in the last layer. -/
theorem store_explicit_depth_boundary (st : ManagerState) (content : String)
    (cv : ScrollVector) (imp : ℚ) (id : String) (now : ℚ) (d : ℤ)
    (hwf : st.layers.length = st.maxRecursionDepth)
    (hmax : 1 ≤ st.maxRecursionDepth) :
    (d < 0 → storeMemoryFragment st content cv imp (some d) id now =
      (st, Except.error "KeyError")) ∧
    ((st.maxRecursionDepth : ℤ) ≤ d →
      ∃ st', storeMemoryFragment st content cv imp (some d) id now = (st', Except.ok id) ∧
        (∀ L', st'.layers[st.maxRecursionDepth - 1]? = some L' →
          ∃ g ∈ L'.fragments, g.fragmentId = id ∧ g.contextVector = cv)) := by
  constructor
  · intro hd
    have htd : min ((some d).getD (calculateOptimalDepth st.maxRecursionDepth content cv))
        ((st.maxRecursionDepth : ℤ) - 1) < 0 := by
      rw [Option.getD_some]
      exact lt_of_le_of_lt (min_le_left _ _) hd
    rw [storeMemoryFragment]
    rw [if_pos htd]
    rw [createRecursiveConnections, if_pos htd]
  · intro hd
    have htdeq : min ((some d).getD (calculateOptimalDepth st.maxRecursionDepth content cv))
        ((st.maxRecursionDepth : ℤ) - 1) = (st.maxRecursionDepth : ℤ) - 1 := by
      rw [Option.getD_some]
      exact min_eq_right (by omega)
    obtain ⟨st', hstore, hmax', hlen', hother, htarget⟩ :=
      storeMemoryFragment_ok_view st content cv imp (some d) id now
        ((st.maxRecursionDepth : ℤ) - 1) htdeq.symm (by omega)
        (by omega)
    have hdnat : ((st.maxRecursionDepth : ℤ) - 1).toNat = st.maxRecursionDepth - 1 := by
      omega
    refine ⟨st', hstore, ?_⟩
    intro L' hL'
    rw [hdnat] at htarget
    obtain ⟨L, hL⟩ : ∃ L, st.layers[st.maxRecursionDepth - 1]? = some L :=
      ⟨_, List.getElem?_eq_getElem (by omega)⟩
    rw [hL', hL] at htarget
    simp only [Option.map_some', Option.some_inj] at htarget
    have hfrv : L'.fragments.map fragView =
        (L.addFragment (freshFragment content cv imp id now)).fragments.map fragView := by
      have := congrArg (fun t => t.2.2.2.2) htarget
      simpa [layerView] using this
    obtain ⟨g, hg, hgv⟩ := mem_fragView_of_eq hfrv
      (mem_addFragment_self L (freshFragment content cv imp id now))
    obtain ⟨hid, hcv, _, _⟩ := fragView_fields hgv
    exact ⟨g, hg, hid, hcv⟩

/-- Claim C10, witness: on a fresh two-layer manager, storing at depth
`-1` raises `KeyError` with the state unchanged, and storing at depth 5
succeeds, clamped into layer 1. -/
theorem store_explicit_depth_boundary_witness :
    ((-1 : ℤ) < 0 ∧ storeMemoryFragment (initialManagerState 2 (1/2)) "" ScrollVector.zero 1
      (some (-1)) "f0" 0 = (initialManagerState 2 (1/2), Except.error "KeyError")) ∧
    ((2 : ℤ) ≤ 5 ∧
      ∃ st', storeMemoryFragment (initialManagerState 2 (1/2)) "" ScrollVector.zero 1
          (some 5) "f0" 0 = (st', Except.ok "f0") ∧
        (∀ L', st'.layers[(initialManagerState 2 (1/2)).maxRecursionDepth - 1]? = some L' →
          ∃ g ∈ L'.fragments, g.fragmentId = "f0" ∧ g.contextVector = ScrollVector.zero)) := by
  have hwf : (initialManagerState 2 (1/2)).layers.length =
      (initialManagerState 2 (1/2)).maxRecursionDepth := by
    rw [initialManagerState]
    simp
  have h := store_explicit_depth_boundary (initialManagerState 2 (1/2)) "" ScrollVector.zero
    1 "f0" 0 (-1) hwf (by show (1 : ℕ) ≤ 2; norm_num)
  have h5 := store_explicit_depth_boundary (initialManagerState 2 (1/2)) "" ScrollVector.zero
    1 "f0" 0 5 hwf (by show (1 : ℕ) ≤ 2; norm_num)
  refine ⟨⟨by norm_num, h.1 (by norm_num)⟩, ⟨by norm_num, ?_⟩⟩
  exact h5.2 (by show ((2 : ℕ) : ℤ) ≤ 5; norm_num)

/-! ### Claim C5: field-transform node selection and aggregation -/

/-- The selection score of `_select_task_nodes`:
`fieldAffinity * positionResonance * computeCapacity`. -/
noncomputable def nodeScore (inputField : CodexDriftField) (n : MeshNode) : ℝ :=
  n.fieldAffinity * calculatePositionResonance n.position inputField.computeFieldGradient *
    n.computeCapacity

/-- Claim C5: for every `field_transform` task submission over a
registry with distinct node ids, the target set holds at most 3
distinct ids, each of a healthy `active` node; every unselected healthy
active node scores no higher than every selected node; and the
aggregated result is the componentwise arithmetic mean of the per-node
transformed vectors, each produced by the 5D transform at the
contributing node's position. -/
theorem fieldTransform_selection_aggregation (nodes : List MeshNode)
    (inputField : CodexDriftField) (now : ℚ)
    (hids : (nodes.map MeshNode.nodeId).Nodup) :
    (selectTaskNodes nodes inputField now).length ≤ 3 ∧
    (selectTaskNodes nodes inputField now).Nodup ∧
    (∀ id ∈ selectTaskNodes nodes inputField now, ∃ n ∈ nodes, n.nodeId = id ∧
      n.state = MeshNodeState.active ∧ n.isHealthy now 30 = true) ∧
    (∀ n ∈ nodes, n.state = MeshNodeState.active → n.isHealthy now 30 = true →
      n.nodeId ∉ selectTaskNodes nodes inputField now →
      ∀ m ∈ nodes, m.nodeId ∈ selectTaskNodes nodes inputField now →
        nodeScore inputField n ≤ nodeScore inputField m) ∧
    (∀ r ∈ fieldTransformResults nodes (selectTaskNodes nodes inputField now) inputField,
      ∃ n ∈ nodes, n.nodeId = r.1 ∧ r.2 = compute5dTransform inputField n.position) ∧
    (∀ v cs, aggregateFieldTransform
        (fieldTransformResults nodes (selectTaskNodes nodes inputField now) inputField) =
        some (v, cs) →
      (fieldTransformResults nodes (selectTaskNodes nodes inputField now) inputField ≠ []) ∧
      v.x = ((fieldTransformResults nodes (selectTaskNodes nodes inputField now)
          inputField).map (fun r => r.2.x)).sum /
        (fieldTransformResults nodes (selectTaskNodes nodes inputField now) inputField).length ∧
      v.y = ((fieldTransformResults nodes (selectTaskNodes nodes inputField now)
          inputField).map (fun r => r.2.y)).sum /
        (fieldTransformResults nodes (selectTaskNodes nodes inputField now) inputField).length ∧
      v.z = ((fieldTransformResults nodes (selectTaskNodes nodes inputField now)
          inputField).map (fun r => r.2.z)).sum /
        (fieldTransformResults nodes (selectTaskNodes nodes inputField now) inputField).length ∧
      v.temporal = ((fieldTransformResults nodes (selectTaskNodes nodes inputField now)
          inputField).map (fun r => r.2.temporal)).sum /
        (fieldTransformResults nodes (selectTaskNodes nodes inputField now) inputField).length ∧
      v.symbolic = ((fieldTransformResults nodes (selectTaskNodes nodes inputField now)
          inputField).map (fun r => r.2.symbolic)).sum /
        (fieldTransformResults nodes (selectTaskNodes nodes inputField now) inputField).length ∧
      cs = (fieldTransformResults nodes (selectTaskNodes nodes inputField now)
          inputField).map (fun r => r.1)) := by
  have hsel : selectTaskNodes nodes inputField now =
      ((sortDescBy (fun p => p.2)
        ((nodes.filter fun n =>
            decide (n.state = MeshNodeState.active) && n.isHealthy now 30).map fun node =>
          (node.nodeId, nodeScore inputField node))).take 3).map (fun p => p.1) := by
    rw [selectTaskNodes]
    rfl
  set available := nodes.filter fun n =>
    decide (n.state = MeshNodeState.active) && n.isHealthy now 30 with havail
  set scores := available.map (fun node => (node.nodeId, nodeScore inputField node))
    with hscores
  set sorted := sortDescBy (fun p : String × ℝ => p.2) scores with hsorted
  have hperm : List.Perm sorted scores := sortDescBy_perm _ _
  have hmem_avail : ∀ n ∈ available, n ∈ nodes ∧ n.state = MeshNodeState.active ∧
      n.isHealthy now 30 = true := by
    intro n hn
    obtain ⟨hn1, hn2⟩ := List.mem_filter.mp hn
    rw [Bool.and_eq_true, decide_eq_true_eq] at hn2
    exact ⟨hn1, hn2.1, hn2.2⟩
  have hmem_scores : ∀ p ∈ scores, ∃ n ∈ available, p = (n.nodeId, nodeScore inputField n) := by
    intro p hp
    obtain ⟨n, hn, hpn⟩ := List.mem_map.mp hp
    exact ⟨n, hn, hpn.symm⟩
  have hscore_nodup : (sorted.map fun p => p.1).Nodup := by
    rw [(hperm.map fun p => p.1).nodup_iff, hscores, List.map_map]
    have hcomp : ((fun p : String × ℝ => p.1) ∘ fun node =>
        (node.nodeId, nodeScore inputField node)) = MeshNode.nodeId := rfl
    rw [hcomp, havail]
    exact List.Nodup.sublist ((List.filter_sublist _).map MeshNode.nodeId) hids
  have hsel_mem : ∀ id ∈ selectTaskNodes nodes inputField now,
      ∃ p ∈ sorted.take 3, p.1 = id := by
    intro id hid
    rw [hsel] at hid
    obtain ⟨p, hp, hpid⟩ := List.mem_map.mp hid
    exact ⟨p, hp, hpid⟩
  have hmem_sel : ∀ p ∈ sorted.take 3, p.1 ∈ selectTaskNodes nodes inputField now := by
    intro p hp
    rw [hsel]
    exact List.mem_map_of_mem _ hp
  refine ⟨?_, ?_, ?_, ?_, ?_, ?_⟩
  · rw [hsel]
    calc ((sorted.take 3).map (fun p => p.1)).length = (sorted.take 3).length :=
          List.length_map _ _
      _ ≤ 3 := by
          rw [List.length_take]
          omega
  · rw [hsel, List.map_take]
    exact List.Nodup.sublist (List.take_sublist 3 _) hscore_nodup
  · intro id hid
    obtain ⟨p, hp, hpid⟩ := hsel_mem id hid
    have hp' : p ∈ scores := hperm.mem_iff.mp ((List.take_sublist 3 sorted).mem hp)
    obtain ⟨n, hn, hpn⟩ := hmem_scores p hp'
    obtain ⟨hn1, hn2, hn3⟩ := hmem_avail n hn
    refine ⟨n, hn1, ?_, hn2, hn3⟩
    rw [← hpid, hpn]
  · intro n hn hact hhealth hnotsel m hm hmsel
    have hnav : n ∈ available := by
      rw [havail]
      refine List.mem_filter.mpr ⟨hn, ?_⟩
      rw [Bool.and_eq_true, decide_eq_true_eq]
      exact ⟨hact, hhealth⟩
    have hpn : (n.nodeId, nodeScore inputField n) ∈ scores := by
      rw [hscores]
      exact List.mem_map_of_mem _ hnav
    have hpn' : (n.nodeId, nodeScore inputField n) ∈ sorted := hperm.mem_iff.mpr hpn
    have hsplit : (n.nodeId, nodeScore inputField n) ∈ sorted.take 3 ∨
        (n.nodeId, nodeScore inputField n) ∈ sorted.drop 3 := by
      rw [← List.mem_append, List.take_append_drop]
      exact hpn'
    rcases hsplit with hcase | hcase
    · exact absurd (hmem_sel _ hcase) hnotsel
    · obtain ⟨pm, hpm, hpmid⟩ := hsel_mem m.nodeId hmsel
      have hpm' : pm ∈ scores := hperm.mem_iff.mp ((List.take_sublist 3 sorted).mem hpm)
      obtain ⟨nm, hnm, hpmn⟩ := hmem_scores pm hpm'
      have hnm_nodes : nm ∈ nodes := (hmem_avail nm hnm).1
      have hnmm : nm = m := by
        refine List.inj_on_of_nodup_map hids hnm_nodes hm ?_
        rw [← hpmid, hpmn]
      have hkey : (n.nodeId, nodeScore inputField n).2 ≤ pm.2 :=
        sortDescBy_take_ge_drop (fun p : String × ℝ => p.2) scores 3
          (by rw [← hsorted]; exact hpm) (by rw [← hsorted]; exact hcase)
      rw [hpmn, hnmm] at hkey
      exact hkey
  · intro r hr
    rw [fieldTransformResults] at hr
    obtain ⟨node, hnode, hrn⟩ := List.mem_map.mp hr
    obtain ⟨id, _, hfind⟩ := List.mem_filterMap.mp hnode
    refine ⟨node, List.mem_of_find?_eq_some hfind, ?_, ?_⟩
    · rw [← hrn]
      rfl
    · rw [← hrn]
      rfl
  · intro v cs heq
    cases hrs : fieldTransformResults nodes (selectTaskNodes nodes inputField now) inputField
      with
    | nil =>
      rw [hrs] at heq
      rw [aggregateFieldTransform] at heq
      cases heq
    | cons r rest =>
      rw [hrs] at heq
      simp only [aggregateFieldTransform] at heq
      rw [Option.some_inj, Prod.mk.injEq] at heq
      obtain ⟨hv, hcs⟩ := heq
      refine ⟨by simp, ?_, ?_, ?_, ?_, ?_, hcs.symm⟩ <;> rw [← hv]

/-- A concrete active mesh node for the C5 witness. -/
def c5Node : MeshNode where
  nodeId := "core-0"
  position := ScrollVector.zero
  state := MeshNodeState.active
  computeCapacity := 1
  fieldAffinity := 1
  lastHeartbeat := 0

/-- An empty drift field for the C5 witness. -/
def c5Field : CodexDriftField where
  vectors := []
  driftCoefficient := 1
  fieldStrength := 1
  temporalDecay := 1

/-- Claim C5, witness: on a one-node registry the selection picks at
most 3 healthy active nodes. -/
theorem fieldTransform_selection_aggregation_witness :
    ([c5Node].map MeshNode.nodeId).Nodup ∧
    (selectTaskNodes [c5Node] c5Field 0).length ≤ 3 ∧
    (∀ id ∈ selectTaskNodes [c5Node] c5Field 0, ∃ n ∈ [c5Node], n.nodeId = id ∧
      n.state = MeshNodeState.active ∧ n.isHealthy 0 30 = true) := by
  have hids : ([c5Node].map MeshNode.nodeId).Nodup := by simp
  have h := fieldTransform_selection_aggregation [c5Node] c5Field 0 hids
  exact ⟨hids, h.1, h.2.2.1⟩

/-! ### Retrieval evaluation helpers (claims C3 and C1) -/

theorem calculateVectorSimilarity_self (v : ScrollVector) :
    calculateVectorSimilarity v v = 1 := by
  rw [calculateVectorSimilarity, ScrollVector.magnitude_self_sub_zero]
  norm_num

theorem pairwise_ge_of_const_key {α β : Type _} [LinearOrder β] (key : α → β) (c : β)
    {l : List α} (h : ∀ a ∈ l, key a = c) :
    l.Pairwise (fun p q => key q ≤ key p) := by
  induction l with
  | nil => exact List.Pairwise.nil
  | cons a l ih =>
    refine List.pairwise_cons.mpr ⟨?_, ih fun b hb => h b (List.mem_cons_of_mem a hb)⟩
    intro b hb
    rw [h a (List.mem_cons_self a l), h b (List.mem_cons_of_mem a hb)]

theorem fragView_eq_tuple {f : MemoryFragment} {s : String} {q : ScrollVector} {imp : ℚ}
    {acc : ℕ} (h : fragView f = (s, q, imp, acc)) :
    f.fragmentId = s ∧ f.contextVector = q ∧ f.importance = imp ∧ f.accessCount = acc := by
  rw [fragView, Prod.mk.injEq, Prod.mk.injEq, Prod.mk.injEq] at h
  exact ⟨h.1, h.2.1, h.2.2.1, h.2.2.2⟩

/-- `find_similar_fragments` over a layer whose fragments all sit at the
query vector with equal importance returns the fragment list unchanged. -/
theorem findSimilar_all_same (L : RecursionLayer) (q : ScrollVector) (t : ℝ)
    (ht0 : t ≠ 0) (ht1 : t ≤ 1)
    (hctx : ∀ f ∈ L.fragments, f.contextVector = q)
    (himp : ∀ f ∈ L.fragments, f.importance = 1) :
    L.findSimilarFragments q (some t) = L.fragments := by
  rw [RecursionLayer.findSimilarFragments]
  simp only [if_neg ht0]
  have hfil : L.fragments.filter
      (fun f => decide (t ≤ calculateVectorSimilarity q f.contextVector)) = L.fragments := by
    refine List.filter_eq_self.mpr ?_
    intro f hf
    rw [decide_eq_true_eq, hctx f hf, calculateVectorSimilarity_self]
    exact ht1
  rw [hfil]
  exact sortDescBy_eq_self _ (pairwise_ge_of_const_key _ 1 himp)

theorem findSimilar_nil (L : RecursionLayer) (q : ScrollVector) (t : Option ℝ)
    (h : L.fragments = []) : L.findSimilarFragments q t = [] := by
  rw [RecursionLayer.findSimilarFragments.eq_def, h]
  rfl

theorem foldl_append_eq_flatten {α β : Type _} (g : β → List α) (layers : List β) :
    layers.foldl (fun acc L => acc ++ g L) [] = (layers.map g).flatten := by
  suffices hgen : ∀ (layers : List β) (acc : List α),
      layers.foldl (fun acc L => acc ++ g L) acc = acc ++ (layers.map g).flatten by
    simpa using hgen layers []
  intro layers
  induction layers with
  | nil => simp
  | cons x xs ih =>
    intro acc
    rw [List.foldl_cons, ih, List.map_cons, List.flatten_cons, List.append_assoc]

theorem flatten_map_of_single {α β : Type _} (g : β → List α) (layers : List β) (d : ℕ)
    (L : β) (hL : layers[d]? = some L)
    (hothers : ∀ j, j ≠ d → ∀ L', layers[j]? = some L' → g L' = []) :
    (layers.map g).flatten = g L := by
  induction layers generalizing d with
  | nil => simp at hL
  | cons x xs ih =>
    cases d with
    | zero =>
      simp only [List.getElem?_cons_zero, Option.some_inj] at hL
      subst hL
      rw [List.map_cons, List.flatten_cons]
      have hrest : (xs.map g).flatten = [] := by
        rw [List.flatten_eq_nil_iff]
        intro l hl
        obtain ⟨L', hL', hgl⟩ := List.mem_map.mp hl
        obtain ⟨j, hj, hLj⟩ := List.getElem_of_mem hL'
        rw [← hgl]
        exact hothers (j + 1) (by omega) L' (by
          rw [List.getElem?_cons_succ]
          rw [List.getElem?_eq_getElem hj, hLj])
      rw [hrest, List.append_nil]
    | succ n =>
      rw [List.getElem?_cons_succ] at hL
      rw [List.map_cons, List.flatten_cons]
      rw [hothers 0 (by omega) x (by rw [List.getElem?_cons_zero])]
      rw [List.nil_append]
      exact ih n hL fun j hj L' hL' =>
        hothers (j + 1) (by omega) L' (by rw [List.getElem?_cons_succ]; exact hL')

theorem updateAccess_fragmentId (now : ℚ) (f : MemoryFragment) :
    (updateAccess now f).fragmentId = f.fragmentId := rfl

/-- `update_access` at the creation instant: the time decay factor is 1,
so only the access count changes. -/
theorem updateAccess_at_creation (now : ℚ) (f : MemoryFragment) (h : f.timestamp = now) :
    updateAccess now f = { f with accessCount := f.accessCount + 1 } := by
  rw [updateAccess, h]
  have : (1 : ℚ) - (now - now) / 86400 * (1 / 100) = 1 := by ring
  rw [this]
  norm_num

/-! ### Claim C3: store-then-retrieve containment -/

theorem upsertFragment_fresh (l : List MemoryFragment) (f : MemoryFragment)
    (h : ∀ g ∈ l, g.fragmentId ≠ f.fragmentId) : upsertFragment l f = l ++ [f] := by
  rw [upsertFragment, if_neg]
  intro hany
  obtain ⟨g, hg, hgid⟩ := List.any_eq_true.mp hany
  exact h g hg (of_decide_eq_true hgid)

theorem calculateOptimalDepth_trivial (maxD : ℕ) (hmax : 1 ≤ maxD) :
    calculateOptimalDepth maxD "" ScrollVector.zero = 0 := by
  rw [calculateOptimalDepth]
  have h0 : ((("" : String).length : ℝ) / 1000 + ScrollVector.zero.magnitude) / 2 *
      (maxD : ℝ) = 0 := by
    rw [magnitude_zero]
    norm_num
  rw [h0, pytrunc_of_nonneg le_rfl, Int.floor_zero]
  omega

/-- The uniform single-layer states the C3 scenario walks through:
depth 1, one layer of capacity 1000 whose fragments (up to links) are
`ids`-labelled unit-importance never-accessed fragments at `q`. -/
def uniformState (st : ManagerState) (q : ScrollVector) (ids : List String) : Prop :=
  st.maxRecursionDepth = 1 ∧
  ∃ L, st.layers = [L] ∧ L.maxFragments = 1000 ∧
    L.fragments.map fragView = ids.map fun s => (s, q, (1 : ℚ), (0 : ℕ))

theorem store_uniform_step (st : ManagerState) (ids : List String) (newId : String)
    (now : ℚ) (hst : uniformState st ScrollVector.zero ids)
    (hlen : ids.length < 1000) (hfresh : newId ∉ ids) :
    (storeMemoryFragment st "" ScrollVector.zero 1 none newId now).2 = Except.ok newId ∧
    uniformState (storeMemoryFragment st "" ScrollVector.zero 1 none newId now).1
      ScrollVector.zero (ids ++ [newId]) := by
  obtain ⟨hmaxd, L, hlayers, hcap, hfr⟩ := hst
  have hfraglen : L.fragments.length = ids.length := by
    have := congrArg List.length hfr
    simpa using this
  have hdepth : calculateOptimalDepth st.maxRecursionDepth "" ScrollVector.zero = 0 := by
    rw [hmaxd]
    exact calculateOptimalDepth_trivial 1 le_rfl
  obtain ⟨st', hstore, hmax', hlen', hother, htarget⟩ :=
    storeMemoryFragment_ok_view st "" ScrollVector.zero 1 none newId now 0
      (by rw [Option.getD_none, hdepth, hmaxd]; norm_num)
      le_rfl (by rw [hlayers]; norm_num)
  rw [hstore]
  refine ⟨rfl, ?_⟩
  refine ⟨by rw [hmax', hmaxd], ?_⟩
  have hlen1 : st'.layers.length = 1 := by
    rw [hlen', hlayers]
    rfl
  obtain ⟨L', hL'⟩ := List.length_eq_one.mp hlen1
  have hview : layerView L' =
      layerView (L.addFragment (freshFragment "" ScrollVector.zero 1 newId now)) := by
    have h1 : st'.layers[(0 : ℤ).toNat]? = some L' := by
      rw [hL']
      rfl
    have h2 : st.layers[(0 : ℤ).toNat]? = some L := by
      rw [hlayers]
      rfl
    rw [h1, h2] at htarget
    simpa using htarget
  have hadd : (L.addFragment (freshFragment "" ScrollVector.zero 1 newId now)).fragments =
      L.fragments ++ [freshFragment "" ScrollVector.zero 1 newId now] := by
    rw [addFragment_below_capacity L _ (by omega)]
    refine upsertFragment_fresh _ _ ?_
    intro g hg
    have : fragView g ∈ ids.map fun s => (s, ScrollVector.zero, (1 : ℚ), (0 : ℕ)) := by
      rw [← hfr]
      exact List.mem_map_of_mem _ hg
    obtain ⟨s, hs, hval⟩ := List.mem_map.mp this
    obtain ⟨hid, _, _, _⟩ := fragView_eq_tuple hval.symm
    rw [hid]
    show s ≠ newId
    intro hcontra
    exact hfresh (hcontra ▸ hs)
  refine ⟨L', hL', ?_, ?_⟩
  · have hm := congrArg (fun t => t.2.2.2.1) hview
    simp only [layerView] at hm
    rw [hm, addFragment_maxFragments]
    exact hcap
  · have hfrv : L'.fragments.map fragView =
        (L.addFragment (freshFragment "" ScrollVector.zero 1 newId now)).fragments.map
          fragView := by
      have := congrArg (fun t => t.2.2.2.2) hview
      simpa [layerView] using this
    rw [hfrv, hadd, List.map_append, hfr, List.map_append]
    rfl

/-- A sequence of default-depth stores of empty content at the origin,
one per fragment id. -/
noncomputable def storeSeq (st : ManagerState) (ids : List String) (now : ℚ) :
    ManagerState :=
  ids.foldl (fun st id => (storeMemoryFragment st "" ScrollVector.zero 1 none id now).1) st

theorem storeSeq_uniform (ids : List String) (ids0 : List String) (st : ManagerState)
    (now : ℚ) (hst : uniformState st ScrollVector.zero ids0)
    (hlen : ids0.length + ids.length ≤ 1000)
    (hnodup : (ids0 ++ ids).Nodup) :
    uniformState (storeSeq st ids now) ScrollVector.zero (ids0 ++ ids) := by
  induction ids generalizing st ids0 with
  | nil => simpa using hst
  | cons id rest ih =>
    have hfresh : id ∉ ids0 := by
      intro hmem
      have hdisj := (List.nodup_append.mp hnodup).2.2
      exact hdisj hmem (by simp)
    have hstep := store_uniform_step st ids0 id now hst
      (by simp only [List.length_cons] at hlen; omega) hfresh
    have hlen2 : (ids0 ++ [id]).length + rest.length ≤ 1000 := by
      rw [List.length_append]
      simp only [List.length_cons, List.length_nil] at hlen ⊢
      omega
    have hrec := ih (ids0 ++ [id])
      ((storeMemoryFragment st "" ScrollVector.zero 1 none id now).1) hstep.2 hlen2
      (by
        have : ids0 ++ [id] ++ rest = ids0 ++ id :: rest := by simp
        rw [this]
        exact hnodup)
    have hseq : storeSeq st (id :: rest) now =
        storeSeq ((storeMemoryFragment st "" ScrollVector.zero 1 none id now).1) rest now :=
      rfl
    rw [hseq]
    have : ids0 ++ [id] ++ rest = ids0 ++ id :: rest := by simp
    rw [← this]
    exact hrec

theorem initial_uniform (c : ℝ) :
    uniformState (initialManagerState 1 c) ScrollVector.zero [] := by
  refine ⟨rfl,
    ⟨{ layerId := "layer_" ++ toString 0
       depth := 0
       fragments := []
       coherenceThreshold := c * (0.9 : ℝ) ^ (0 : ℕ)
       maxFragments := (max 100 (1000 - 100 * ((0 : ℕ) : ℤ))).toNat }, ?_, ?_, ?_⟩⟩
  · rw [initialManagerState]
    simp [List.range_succ]
  · norm_num
    rfl
  · rfl

/-- The id-level outcome of the default retrieval over a uniform
single-layer state: the first `n` stored ids, in insertion order. -/
theorem retrieve_uniform_ids (maxD : ℕ) (L : RecursionLayer) (ids : List String)
    (q : ScrollVector) (n : ℕ) (now : ℚ)
    (hfr : L.fragments.map fragView = ids.map fun s => (s, q, (1 : ℚ), (0 : ℕ))) :
    (retrieveMemoryFragments ⟨maxD, [L]⟩ q n (1/2) now).2.map (fun f => f.fragmentId) =
      ids.take n := by
  have hfields : ∀ f ∈ L.fragments, f.contextVector = q ∧ f.importance = 1 ∧
      f.accessCount = 0 := by
    intro f hf
    have : fragView f ∈ ids.map fun s => (s, q, (1 : ℚ), (0 : ℕ)) := by
      rw [← hfr]
      exact List.mem_map_of_mem _ hf
    obtain ⟨s, _, hval⟩ := List.mem_map.mp this
    obtain ⟨_, h2, h3, h4⟩ := fragView_eq_tuple hval.symm
    exact ⟨h2, h3, h4⟩
  have hfs : L.findSimilarFragments q (some (1/2)) = L.fragments :=
    findSimilar_all_same L q (1/2) (by norm_num) (by norm_num)
      (fun f hf => (hfields f hf).1) (fun f hf => (hfields f hf).2.1)
  have hcand : retrieveCandidates ⟨maxD, [L]⟩ q (1/2) = L.fragments := by
    rw [retrieveCandidates]
    have h1 : (([L] : List RecursionLayer).foldl
        (fun acc layer => acc ++ layer.findSimilarFragments q (some (1/2))) []) =
        L.fragments := by
      rw [List.foldl_cons, List.foldl_nil, List.nil_append, hfs]
    rw [h1]
    refine sortDescBy_eq_self _ (pairwise_ge_of_const_key _ 0 ?_)
    intro f hf
    rw [(hfields f hf).2.1, (hfields f hf).2.2]
    norm_num
  have hids : L.fragments.map (fun f => f.fragmentId) = ids := by
    have h := congrArg (List.map fun t : String × ScrollVector × ℚ × ℕ => t.1) hfr
    rw [List.map_map, List.map_map] at h
    have h1 : ((fun t : String × ScrollVector × ℚ × ℕ => t.1) ∘ fragView) =
        fun f : MemoryFragment => f.fragmentId := rfl
    have h2 : ((fun t : String × ScrollVector × ℚ × ℕ => t.1) ∘
        fun s : String => (s, q, (1 : ℚ), (0 : ℕ))) = fun s : String => s := rfl
    rw [h1, h2] at h
    simpa using h
  rw [retrieveMemoryFragments]
  simp only [hcand]
  rw [List.map_map]
  have hcomp : ((fun f : MemoryFragment => f.fragmentId) ∘ updateAccess now) =
      fun f => f.fragmentId := rfl
  rw [hcomp, List.map_take, hids]

/-- Witness fragment ids: the strings of `i + 1` letters `a`. -/
def mkA (i : ℕ) : String := String.mk (List.replicate (i + 1) 'a')

/-- The first `n` witness ids. -/
def aIds (n : ℕ) : List String := (List.range n).map mkA

/-- Claim C3, counterexample: after ten background fragments are stored
at the origin, storing an eleventh fragment there and immediately
retrieving with the same context vector (defaults `max_results = 10`,
`similarity_threshold = 0.5`) succeeds but returns only the ten older
fragments: every candidate has sort key `importance * access_count = 0`,
the stable sort keeps insertion order, and the newest fragment is cut
by `take 10`. -/
theorem store_retrieve_containment_counterexample :
    (storeMemoryFragment (storeSeq (initialManagerState 1 (1/2)) (aIds 10) 0) ""
        ScrollVector.zero 1 none (mkA 10) 0).2 = Except.ok (mkA 10) ∧
    mkA 10 ∉ ((retrieveMemoryFragments
        (storeMemoryFragment (storeSeq (initialManagerState 1 (1/2)) (aIds 10) 0) ""
          ScrollVector.zero 1 none (mkA 10) 0).1 ScrollVector.zero 10 (1/2) 0).2.map
        fun f => f.fragmentId) := by
  have huniform10 : uniformState (storeSeq (initialManagerState 1 (1/2)) (aIds 10) 0)
      ScrollVector.zero (aIds 10) := by
    have h := storeSeq_uniform (aIds 10) [] (initialManagerState 1 (1/2)) 0
      (initial_uniform (1/2)) (by decide) (by decide)
    simpa using h
  have hstep := store_uniform_step (storeSeq (initialManagerState 1 (1/2)) (aIds 10) 0)
    (aIds 10) (mkA 10) 0 huniform10 (by decide) (by decide)
  refine ⟨hstep.1, ?_⟩
  obtain ⟨hmaxd, L, hlayers, hcap, hfr⟩ := hstep.2
  have hstF : (storeMemoryFragment (storeSeq (initialManagerState 1 (1/2)) (aIds 10) 0) ""
      ScrollVector.zero 1 none (mkA 10) 0).1 =
      (⟨(storeMemoryFragment (storeSeq (initialManagerState 1 (1/2)) (aIds 10) 0) ""
        ScrollVector.zero 1 none (mkA 10) 0).1.maxRecursionDepth, [L]⟩ : ManagerState) := by
    rw [← hlayers]
  rw [hstF]
  rw [retrieve_uniform_ids _ L (aIds 10 ++ [mkA 10]) ScrollVector.zero 10 0 hfr]
  decide

/-- `g` is among the threshold-`t` similar fragments of its own layer
when it sits exactly at the query vector. -/
theorem mem_findSimilar_of_self (L : RecursionLayer) (q : ScrollVector) (g : MemoryFragment)
    (hg : g ∈ L.fragments) (hgc : g.contextVector = q) (t : ℝ) (ht0 : t ≠ 0) (ht1 : t ≤ 1) :
    g ∈ L.findSimilarFragments q (some t) := by
  rw [RecursionLayer.findSimilarFragments]
  simp only [if_neg ht0]
  refine ((sortDescBy_perm _ _).mem_iff).mpr ?_
  refine List.mem_filter.mpr ⟨hg, ?_⟩
  rw [decide_eq_true_eq, hgc, calculateVectorSimilarity_self]
  exact ht1

theorem retrieveMemoryFragments_snd (st : ManagerState) (q : ScrollVector) (n : ℕ)
    (t : ℝ) (now : ℚ) :
    (retrieveMemoryFragments st q n t now).2 =
      ((retrieveCandidates st q t).take n).map (updateAccess now) := rfl

/-- The stored fragment is visible (id and context intact) in the layer
the store targeted. -/
theorem stored_fragment_mem (st st' : ManagerState) (f : MemoryFragment) (d : ℕ)
    (hd : d < st.layers.length)
    (htarget : st'.layers[d]?.map layerView =
      st.layers[d]?.map fun L => layerView (L.addFragment f)) :
    ∃ L', st'.layers[d]? = some L' ∧ ∃ g ∈ L'.fragments,
      g.fragmentId = f.fragmentId ∧ g.contextVector = f.contextVector := by
  obtain ⟨L, hL⟩ : ∃ L, st.layers[d]? = some L := ⟨_, List.getElem?_eq_getElem hd⟩
  rw [hL] at htarget
  cases hL' : st'.layers[d]? with
  | none =>
    rw [hL'] at htarget
    simp at htarget
  | some L' =>
    rw [hL'] at htarget
    simp only [Option.map_some', Option.some_inj] at htarget
    have hfrv : L'.fragments.map fragView = (L.addFragment f).fragments.map fragView := by
      have := congrArg (fun t => t.2.2.2.2) htarget
      simpa [layerView] using this
    obtain ⟨g, hg, hgv⟩ := mem_fragView_of_eq hfrv (mem_addFragment_self L f)
    obtain ⟨hid, hcv, _, _⟩ := fragView_fields hgv
    exact ⟨L', rfl, g, hg, hid, hcv⟩

/-- Claim C3, amended: a freshly stored fragment always qualifies as a
retrieval candidate for its own context vector (similarity 1 meets the
default 0.5 threshold), and the immediately following default retrieval
returns it whenever the candidate list fits within `max_results`; with
more candidates than `max_results`, the stable sort on
`importance * access_count` (the new fragment's key is 0) can cut the
newly stored fragment from the top-k. -/
theorem store_retrieve_containment_bounded (st : ManagerState) (content : String)
    (cv : ScrollVector) (imp : ℚ) (id : String) (now : ℚ)
    (hwf : st.layers.length = st.maxRecursionDepth)
    (hmax : 1 ≤ st.maxRecursionDepth) :
    ∃ st', storeMemoryFragment st content cv imp none id now = (st', Except.ok id) ∧
      ((retrieveCandidates st' cv (1/2)).length ≤ 10 →
        id ∈ (retrieveMemoryFragments st' cv 10 (1/2) now).2.map fun f => f.fragmentId) := by
  have h0 := calculateOptimalDepth_nonneg st.maxRecursionDepth content cv hmax
  have hltd := calculateOptimalDepth_lt st.maxRecursionDepth content cv hmax
  obtain ⟨st', hstore, hmax', hlen', hother, htarget⟩ :=
    storeMemoryFragment_ok_view st content cv imp none id now
      (calculateOptimalDepth st.maxRecursionDepth content cv)
      (by
        rw [Option.getD_none]
        exact (min_eq_left (by rw [calculateOptimalDepth]; exact min_le_right _ _)).symm)
      h0 (by omega)
  obtain ⟨L', hL', g, hg, hgid, hgcv⟩ := stored_fragment_mem st st'
    (freshFragment content cv imp id now)
    (calculateOptimalDepth st.maxRecursionDepth content cv).toNat (by omega) htarget
  refine ⟨st', hstore, ?_⟩
  intro hclen
  have hgsim : g ∈ L'.findSimilarFragments cv (some (1/2)) :=
    mem_findSimilar_of_self L' cv g hg hgcv (1/2) (by norm_num) (by norm_num)
  have hgcand : g ∈ retrieveCandidates st' cv (1/2) := by
    rw [retrieveCandidates, foldl_append_eq_flatten]
    refine ((sortDescBy_perm _ _).mem_iff).mpr ?_
    refine List.mem_flatten.mpr ⟨L'.findSimilarFragments cv (some (1/2)), ?_, hgsim⟩
    exact List.mem_map_of_mem _ (List.getElem?_mem hL')
  have htake : (retrieveCandidates st' cv (1/2)).take 10 =
      retrieveCandidates st' cv (1/2) := List.take_of_length_le hclen
  rw [retrieveMemoryFragments_snd, htake, List.map_map]
  have hcomp : ((fun f : MemoryFragment => f.fragmentId) ∘ updateAccess now) =
      fun f : MemoryFragment => f.fragmentId := rfl
  rw [hcomp]
  have hgid' : g.fragmentId = id := hgid
  rw [← hgid']
  exact List.mem_map_of_mem _ hgcand

/-- Claim C3 (amended), witness: storing a single fragment into a fresh
manager and retrieving at its context vector returns it (one candidate,
well within `max_results`). -/
theorem store_retrieve_containment_bounded_witness :
    ∃ st', storeMemoryFragment (initialManagerState 1 (1/2)) "" ScrollVector.zero 1 none
        "f0" 0 = (st', Except.ok "f0") ∧
      "f0" ∈ (retrieveMemoryFragments st' ScrollVector.zero 10 (1/2) 0).2.map
        fun f => f.fragmentId := by
  obtain ⟨st', hstore, hmem⟩ := store_retrieve_containment_bounded
    (initialManagerState 1 (1/2)) "" ScrollVector.zero 1 "f0" 0
    (by rw [initialManagerState]; simp) le_rfl
  refine ⟨st', hstore, hmem ?_⟩
  have hstep := store_uniform_step (initialManagerState 1 (1/2)) [] "f0" 0
    (initial_uniform (1/2)) (by norm_num) (by simp)
  obtain ⟨hmaxd, L, hlayers, hcap, hfr⟩ := hstep.2
  rw [hstore] at hlayers
  have hstF : st' = (⟨st'.maxRecursionDepth, [L]⟩ : ManagerState) := by
    rw [← hlayers]
  rw [hstF]
  have hfs : L.findSimilarFragments ScrollVector.zero (some (1/2)) = L.fragments := by
    refine findSimilar_all_same L ScrollVector.zero (1/2) (by norm_num) (by norm_num) ?_ ?_
    · intro f hf
      have : fragView f ∈ ([] ++ ["f0"]).map
          fun s => (s, ScrollVector.zero, (1 : ℚ), (0 : ℕ)) := by
        rw [← hfr]
        exact List.mem_map_of_mem _ hf
      obtain ⟨s, _, hval⟩ := List.mem_map.mp this
      exact (fragView_eq_tuple hval.symm).2.1
    · intro f hf
      have : fragView f ∈ ([] ++ ["f0"]).map
          fun s => (s, ScrollVector.zero, (1 : ℚ), (0 : ℕ)) := by
        rw [← hfr]
        exact List.mem_map_of_mem _ hf
      obtain ⟨s, _, hval⟩ := List.mem_map.mp this
      exact (fragView_eq_tuple hval.symm).2.2.1
  have hlenfr : L.fragments.length = 1 := by
    have := congrArg List.length hfr
    simpa using this
  rw [retrieveCandidates, foldl_append_eq_flatten]
  have h1 : (([L] : List RecursionLayer).map
      fun layer => layer.findSimilarFragments ScrollVector.zero (some (1/2))) =
      [L.fragments] := by
    rw [List.map_cons, List.map_nil, hfs]
  calc (sortDescBy (fun f => f.importance * (f.accessCount : ℚ))
      (((⟨st'.maxRecursionDepth, [L]⟩ : ManagerState)).layers.map
        fun layer => layer.findSimilarFragments ScrollVector.zero (some (1/2))).flatten).length
      = L.fragments.length := by
        rw [show ((⟨st'.maxRecursionDepth, [L]⟩ : ManagerState)).layers = [L] from rfl, h1]
        rw [List.flatten_cons, List.flatten_nil, List.append_nil]
        exact ((sortDescBy_perm _ _).length_eq)
    _ ≤ 10 := by omega

/-! ### Claim C7: recursive connections -/

theorem mem_findSimilar {L : RecursionLayer} {q : ScrollVector} {t : ℝ} {s : MemoryFragment}
    (ht0 : t ≠ 0) (hs : s ∈ L.findSimilarFragments q (some t)) :
    s ∈ L.fragments ∧ t ≤ calculateVectorSimilarity q s.contextVector := by
  rw [RecursionLayer.findSimilarFragments] at hs
  simp only [if_neg ht0] at hs
  have hmem := (sortDescBy_perm _ _).mem_iff.mp hs
  obtain ⟨h1, h2⟩ := List.mem_filter.mp hmem
  exact ⟨h1, of_decide_eq_true h2⟩

theorem sortDescBy_head_max {α β : Type _} [LinearOrder β] (key : α → β) (l : List α)
    (h : α) (rest : List α) (heq : sortDescBy key l = h :: rest) :
    ∀ a ∈ l, key a ≤ key h := by
  intro a ha
  have hmem : a ∈ h :: rest := by
    rw [← heq]
    exact (sortDescBy_perm key l).mem_iff.mpr ha
  rcases List.mem_cons.mp hmem with rfl | hmem
  · exact le_rfl
  · have hsorted := sortDescBy_sorted key l
    rw [heq] at hsorted
    exact (List.pairwise_cons.mp hsorted).1 a hmem

theorem findSimilar_singleton (L : RecursionLayer) (q : ScrollVector) (t : ℝ)
    (f : MemoryFragment) (hf : L.fragments = [f]) (ht0 : t ≠ 0)
    (hsim : t ≤ calculateVectorSimilarity q f.contextVector) :
    L.findSimilarFragments q (some t) = [f] := by
  rw [RecursionLayer.findSimilarFragments]
  simp only [if_neg ht0, hf]
  rw [List.filter_cons, if_pos (decide_eq_true hsim), List.filter_nil]
  rfl

theorem findSimilar_pair (L : RecursionLayer) (q : ScrollVector) (t : ℝ)
    (f1 f2 : MemoryFragment) (hf : L.fragments = [f1, f2]) (ht0 : t ≠ 0)
    (h1 : t ≤ calculateVectorSimilarity q f1.contextVector)
    (h2 : t ≤ calculateVectorSimilarity q f2.contextVector)
    (himp : f1.importance < f2.importance) :
    L.findSimilarFragments q (some t) = [f2, f1] := by
  rw [RecursionLayer.findSimilarFragments]
  simp only [if_neg ht0, hf]
  rw [List.filter_cons, if_pos (decide_eq_true h1), List.filter_cons,
    if_pos (decide_eq_true h2), List.filter_nil]
  show insertDescBy (fun f => f.importance) f2 (insertDescBy (fun f => f.importance) f1 []) =
    [f2, f1]
  rw [insertDescBy, insertDescBy, if_pos himp]

theorem sim_zero_unit_x :
    calculateVectorSimilarity ScrollVector.zero ⟨1, 0, 0, 0, 0⟩ = 4 / 5 := by
  have hmag : (ScrollVector.sub ScrollVector.zero ⟨1, 0, 0, 0, 0⟩).magnitude = 1 := by
    rw [ScrollVector.sub, ScrollVector.magnitude, ScrollVector.zero]
    norm_num [Real.sqrt_one]
  rw [calculateVectorSimilarity, hmag]
  norm_num

/-- C7 counterexample data: fragment `A` sits at the origin with
importance 1/2; its links are what a prior store of `B` leaves. -/
def c7A : MemoryFragment where
  fragmentId := "A"
  content := ""
  contextVector := ScrollVector.zero
  timestamp := 0
  accessCount := 0
  importance := 1/2
  parentFragments := []
  childFragments := ["B"]

/-- C7 counterexample data: fragment `B` sits at distance 1 from the
origin with importance 2, linked to `A` as its own store left it. -/
def c7B : MemoryFragment where
  fragmentId := "B"
  content := ""
  contextVector := ⟨1, 0, 0, 0, 0⟩
  timestamp := 0
  accessCount := 0
  importance := 2
  parentFragments := ["A"]
  childFragments := []

/-- C7 counterexample data: layer 0 holding `A` and `B`. -/
def c7L0 : RecursionLayer where
  layerId := "layer_0"
  depth := 0
  fragments := [c7A, c7B]
  coherenceThreshold := 0.5
  maxFragments := 1000

/-- C7 counterexample data: the empty layer 1. -/
def c7L1 : RecursionLayer where
  layerId := "layer_1"
  depth := 1
  fragments := []
  coherenceThreshold := 0.45
  maxFragments := 900

/-- The two-layer pre-state of the C7 counterexample. -/
def c7Pre : ManagerState := ⟨2, [c7L0, c7L1]⟩

/-- The fragment the C7 counterexample stores at depth 1. -/
def c7Fresh : MemoryFragment := freshFragment "" ScrollVector.zero 1 "F" 0

/-- The state after layer 1 receives the new fragment, before linking. -/
def c7St1 : ManagerState := ⟨2, [c7L0, { c7L1 with fragments := [c7Fresh] }]⟩

/-- The final state of the C7 counterexample: the stored fragment is
linked to `B` (the most important qualifying parent-layer fragment),
not to the strictly more similar `A`. -/
def c7Final : ManagerState :=
  ⟨2, [{ c7L0 with fragments := [c7A, { c7B with childFragments := ["F"] }] },
       { c7L1 with fragments := [{ c7Fresh with parentFragments := ["B"] }] }]⟩

theorem c7_sim_A : calculateVectorSimilarity ScrollVector.zero c7A.contextVector = 1 := by
  have : c7A.contextVector = ScrollVector.zero := rfl
  rw [this, calculateVectorSimilarity_self]

theorem c7_sim_B : calculateVectorSimilarity ScrollVector.zero c7B.contextVector = 4/5 := by
  have : c7B.contextVector = (⟨1, 0, 0, 0, 0⟩ : ScrollVector) := rfl
  rw [this, sim_zero_unit_x]

theorem c7_store_eval :
    storeMemoryFragment c7Pre "" ScrollVector.zero 1 (some 1) "F" 0 =
      (c7Final, Except.ok "F") := by
  have hplumb : storeMemoryFragment c7Pre "" ScrollVector.zero 1 (some 1) "F" 0 =
      (match createRecursiveConnections c7St1 c7Fresh 1 with
       | (st2, Except.ok _) => (st2, Except.ok "F")
       | (st2, Except.error e) => (st2, Except.error e)) := rfl
  have hq : c7Fresh.contextVector = ScrollVector.zero := rfl
  have hfs1 : RecursionLayer.findSimilarFragments { c7L1 with fragments := [c7Fresh] }
      c7Fresh.contextVector (some 0.7) = [c7Fresh] := by
    refine findSimilar_singleton _ _ _ _ rfl (by norm_num) ?_
    rw [hq, calculateVectorSimilarity_self]
    norm_num
  have hfs2 : RecursionLayer.findSimilarFragments c7L0
      c7Fresh.contextVector (some 0.6) = [c7B, c7A] := by
    refine findSimilar_pair _ _ _ c7A c7B rfl (by norm_num) ?_ ?_ (by norm_num [c7A, c7B])
    · rw [hq, c7_sim_A]
      norm_num
    · rw [hq, c7_sim_B]
      norm_num
  have hconn : createRecursiveConnections c7St1 c7Fresh 1 = (c7Final, Except.ok ()) := by
    rw [createRecursiveConnections]
    rw [if_neg (by norm_num : ¬ (1 : ℤ) < 0)]
    have hidx : c7St1.layers[(1 : ℤ).toNat]? =
        some { c7L1 with fragments := [c7Fresh] } := rfl
    have hidx0 : c7St1.layers[(1 : ℤ).toNat - 1]? = some c7L0 := rfl
    simp only [hidx, hidx0, hfs1, hfs2]
    rfl
  rw [hplumb, hconn]

/-- Claim C7, counterexample: storing a fragment at the origin into
layer 1 over the concrete two-fragment layer 0 links it (as the single
parent-layer link) to `B`, whose similarity is 4/5, even though `A`
also qualifies (similarity 1 ≥ 0.6) and is strictly more similar: the
parent-layer candidate list is ordered by importance, not similarity. -/
theorem recursive_connections_most_similar_counterexample :
    (storeMemoryFragment c7Pre "" ScrollVector.zero 1 (some 1) "F" 0).2 = Except.ok "F" ∧
    (∃ L1', (storeMemoryFragment c7Pre "" ScrollVector.zero 1 (some 1) "F" 0).1.layers[1]? =
        some L1' ∧
      L1'.fragments.map (fun f => (f.fragmentId, f.parentFragments)) = [("F", ["B"])]) ∧
    calculateVectorSimilarity ScrollVector.zero c7A.contextVector = 1 ∧
    calculateVectorSimilarity ScrollVector.zero c7B.contextVector = 4/5 ∧
    (0.6 : ℝ) ≤ 1 ∧ (4/5 : ℝ) < 1 := by
  refine ⟨?_, ?_, c7_sim_A, c7_sim_B, by norm_num, by norm_num⟩
  · rw [c7_store_eval]
  · rw [c7_store_eval]
    exact ⟨_, rfl, rfl⟩

theorem lt_length_of_getElem?_some {α : Type _} {l : List α} {i : ℕ} {x : α}
    (h : l[i]? = some x) : i < l.length := by
  by_contra hc
  rw [List.getElem?_eq_none (le_of_not_lt hc)] at h
  cases h

/-- The `same_layer_links` sub-expression of `_create_recursive_connections`:
ids of up to three 0.7-similar same-layer fragments other than the new one. -/
noncomputable def sameLayerLinkIds (L : RecursionLayer) (fragment : MemoryFragment) :
    List String :=
  (((L.findSimilarFragments fragment.contextVector (some 0.7)).take 3).filter
    (fun s => s.fragmentId ≠ fragment.fragmentId)).map (fun s => s.fragmentId)

/-- The parent-layer link of `_create_recursive_connections`: the id of the
head of the parent layer's 0.6-similar list, when the depth is positive and
both the parent layer and such a candidate exist. -/
noncomputable def parentLinkIds (st : ManagerState) (fragment : MemoryFragment) (d : ℤ) :
    List String :=
  if 0 < d then
    match st.layers[d.toNat - 1]? with
    | none => []
    | some parentLayer =>
        match parentLayer.findSimilarFragments fragment.contextVector (some 0.6) with
        | [] => []
        | parent :: _ => [parent.fragmentId]
  else []

/-- The fragment list of the target layer after `_create_recursive_connections`
rewires it: same-layer partners gain the new fragment as child, the new
fragment gains all link partners as parents. -/
noncomputable def linkedFragments (L : RecursionLayer) (fragment : MemoryFragment)
    (pl : List String) : List MemoryFragment :=
  setParents (appendChildTo L.fragments (sameLayerLinkIds L fragment) fragment.fragmentId)
    fragment.fragmentId
    (fragment.parentFragments ++ sameLayerLinkIds L fragment ++ pl)

/-- The layer list `_create_recursive_connections` leaves behind at a valid
depth: the target layer rewired, and (at positive depth) the parent layer's
linked fragment given the new fragment as child. -/
noncomputable def connResultLayers (st : ManagerState) (fragment : MemoryFragment)
    (d : ℤ) (L : RecursionLayer) : List RecursionLayer :=
  if 0 < d then
    connectParentLayer
      (st.layers.set d.toNat
        { L with fragments := linkedFragments L fragment (parentLinkIds st fragment d) })
      (d.toNat - 1) (parentLinkIds st fragment d) fragment.fragmentId
  else
    st.layers.set d.toNat
      { L with fragments := linkedFragments L fragment (parentLinkIds st fragment d) }

theorem createRecursiveConnections_eq (st : ManagerState) (fragment : MemoryFragment)
    (d : ℤ) (L : RecursionLayer) (hd : ¬ d < 0) (hL : st.layers[d.toNat]? = some L) :
    createRecursiveConnections st fragment d =
      ({ st with layers := connResultLayers st fragment d L }, Except.ok ()) := by
  rw [createRecursiveConnections, if_neg hd, hL]
  rfl

theorem getElem?_set_set_ne {α : Type _} (l : List α) (i j : ℕ) (x y : α)
    (hij : j ≠ i) (hi : i < l.length) : ((l.set i x).set j y)[i]? = some x := by
  rw [List.getElem?_set_ne hij]
  exact List.getElem?_set_self hi

theorem getElem?_set_set_self {α : Type _} (l : List α) (i j : ℕ) (x y : α)
    (hj : j < l.length) : ((l.set i x).set j y)[j]? = some y :=
  List.getElem?_set_self (by simpa using hj)

theorem setParents_appendChildTo_self (l : List MemoryFragment) (ids : List String)
    (fid : String) (ps : List String) (f : MemoryFragment)
    (hf : f ∈ l) (hfid : f.fragmentId = fid) :
    ∃ g ∈ setParents (appendChildTo l ids fid) fid ps,
      g.fragmentId = fid ∧ g.parentFragments = ps := by
  rw [setParents, appendChildTo]
  by_cases hc : (ids.contains f.fragmentId) = true
  · refine ⟨_, List.mem_map.mpr ⟨_, List.mem_map.mpr ⟨f, hf, rfl⟩, rfl⟩, ?_⟩
    rw [if_pos hc, if_pos (show ({ f with
        childFragments := f.childFragments ++ [fid] } : MemoryFragment).fragmentId = fid
      from hfid)]
    exact ⟨hfid, rfl⟩
  · refine ⟨_, List.mem_map.mpr ⟨_, List.mem_map.mpr ⟨f, hf, rfl⟩, rfl⟩, ?_⟩
    rw [if_neg hc, if_pos hfid]
    exact ⟨hfid, rfl⟩

theorem setParents_appendChildTo_link (l : List MemoryFragment) (ids : List String)
    (fid : String) (ps : List String) (f : MemoryFragment) (p : String)
    (hf : f ∈ l) (hfid : f.fragmentId = p) (hne : p ≠ fid) (hp : p ∈ ids) :
    ∃ g ∈ setParents (appendChildTo l ids fid) fid ps,
      g.fragmentId = p ∧ fid ∈ g.childFragments := by
  rw [setParents, appendChildTo]
  have hc : ids.contains f.fragmentId = true := by
    rw [hfid]
    exact List.elem_eq_true_of_mem hp
  refine ⟨_, List.mem_map.mpr ⟨_, List.mem_map.mpr ⟨f, hf, rfl⟩, rfl⟩, ?_⟩
  rw [if_pos hc, if_neg (show ¬ ({ f with
      childFragments := f.childFragments ++ [fid] } : MemoryFragment).fragmentId = fid
    from fun h => hne (hfid.symm.trans h))]
  exact ⟨hfid, List.mem_append_right _ (List.mem_singleton.mpr rfl)⟩

theorem appendChildTo_link (l : List MemoryFragment) (ids : List String) (cid : String)
    (f : MemoryFragment) (p : String) (hf : f ∈ l) (hfid : f.fragmentId = p) (hp : p ∈ ids) :
    ∃ g ∈ appendChildTo l ids cid, g.fragmentId = p ∧ cid ∈ g.childFragments := by
  rw [appendChildTo]
  have hc : ids.contains f.fragmentId = true := by
    rw [hfid]
    exact List.elem_eq_true_of_mem hp
  refine ⟨_, List.mem_map.mpr ⟨f, hf, rfl⟩, ?_⟩
  rw [if_pos hc]
  exact ⟨hfid, List.mem_append_right _ (List.mem_singleton.mpr rfl)⟩

theorem createRecursiveConnections_spec (st : ManagerState) (fragment : MemoryFragment)
    (d : ℤ) (L : RecursionLayer)
    (hd : 0 ≤ d) (hL : st.layers[d.toNat]? = some L)
    (hmem : fragment ∈ L.fragments) (hpar : fragment.parentFragments = []) :
    ∃ (st' : ManagerState) (sl pl : List String),
      createRecursiveConnections st fragment d = (st', Except.ok ()) ∧
      sl.length ≤ 3 ∧ pl.length ≤ 1 ∧
      (∀ p ∈ sl, p ≠ fragment.fragmentId ∧ ∃ f0 ∈ L.fragments, f0.fragmentId = p ∧
        0.7 ≤ calculateVectorSimilarity fragment.contextVector f0.contextVector) ∧
      (∃ L', st'.layers[d.toNat]? = some L' ∧
        (∃ g ∈ L'.fragments, g.fragmentId = fragment.fragmentId ∧
          g.parentFragments = sl ++ pl) ∧
        (∀ p ∈ sl, ∃ g ∈ L'.fragments, g.fragmentId = p ∧
          fragment.fragmentId ∈ g.childFragments)) ∧
      (∀ p ∈ pl, 0 < d ∧
        ∃ PL, st.layers[d.toNat - 1]? = some PL ∧
          (∃ parent ∈ PL.fragments, parent.fragmentId = p ∧
            0.6 ≤ calculateVectorSimilarity fragment.contextVector parent.contextVector ∧
            ∀ q ∈ PL.fragments,
              0.6 ≤ calculateVectorSimilarity fragment.contextVector q.contextVector →
              q.importance ≤ parent.importance) ∧
          (∃ PL', st'.layers[d.toNat - 1]? = some PL' ∧
            ∃ g ∈ PL'.fragments, g.fragmentId = p ∧
              fragment.fragmentId ∈ g.childFragments)) := by
  have ht7 : (0.7 : ℝ) ≠ 0 := by norm_num
  have ht6 : (0.6 : ℝ) ≠ 0 := by norm_num
  have hnlen : d.toNat < st.layers.length := lt_length_of_getElem?_some hL
  have heq := createRecursiveConnections_eq st fragment d L (not_lt.mpr hd) hL
  have hsl3 : (sameLayerLinkIds L fragment).length ≤ 3 := by
    rw [sameLayerLinkIds, List.length_map]
    refine le_trans (List.length_filter_le _ _) ?_
    rw [List.length_take]
    exact min_le_left _ _
  have hslmem : ∀ p ∈ sameLayerLinkIds L fragment, p ≠ fragment.fragmentId ∧
      ∃ f0 ∈ L.fragments, f0.fragmentId = p ∧
        0.7 ≤ calculateVectorSimilarity fragment.contextVector f0.contextVector := by
    intro p hp
    rw [sameLayerLinkIds] at hp
    obtain ⟨s, hs, rfl⟩ := List.mem_map.mp hp
    obtain ⟨hs1, hs2⟩ := List.mem_filter.mp hs
    have hsmem := List.take_subset 3 _ hs1
    obtain ⟨hsL, hsim⟩ := mem_findSimilar ht7 hsmem
    exact ⟨of_decide_eq_true hs2, s, hsL, rfl, hsim⟩
  have hself : ∀ pl : List String,
      ∃ g ∈ linkedFragments L fragment pl, g.fragmentId = fragment.fragmentId ∧
        g.parentFragments = sameLayerLinkIds L fragment ++ pl := by
    intro pl
    rw [linkedFragments, hpar, List.nil_append]
    exact setParents_appendChildTo_self L.fragments (sameLayerLinkIds L fragment)
      fragment.fragmentId (sameLayerLinkIds L fragment ++ pl) fragment hmem rfl
  have hbid : ∀ pl : List String, ∀ p ∈ sameLayerLinkIds L fragment,
      ∃ g ∈ linkedFragments L fragment pl, g.fragmentId = p ∧
        fragment.fragmentId ∈ g.childFragments := by
    intro pl p hp
    obtain ⟨hne, f0, hf0, hf0id, _⟩ := hslmem p hp
    rw [linkedFragments]
    exact setParents_appendChildTo_link L.fragments (sameLayerLinkIds L fragment)
      fragment.fragmentId _ f0 p hf0 hf0id hne hp
  by_cases hdpos : 0 < d
  · have hn1 : d.toNat - 1 ≠ d.toNat := by omega
    cases hPL : st.layers[d.toNat - 1]? with
    | none =>
      have hpl : parentLinkIds st fragment d = [] := by
        rw [parentLinkIds, if_pos hdpos, hPL]
      have hlay1 : (st.layers.set d.toNat
          { L with fragments := linkedFragments L fragment [] })[d.toNat - 1]? = none := by
        rw [List.getElem?_set_ne (Ne.symm hn1), hPL]
      have hlayers : connResultLayers st fragment d L =
          st.layers.set d.toNat { L with fragments := linkedFragments L fragment [] } := by
        rw [connResultLayers, if_pos hdpos, hpl, connectParentLayer, hlay1]
      refine ⟨_, sameLayerLinkIds L fragment, [], by rw [heq, hlayers], hsl3, by simp,
        hslmem, ?_, fun p hp => absurd hp (List.not_mem_nil p)⟩
      refine ⟨{ L with fragments := linkedFragments L fragment [] }, ?_, hself [], hbid []⟩
      exact List.getElem?_set_self hnlen
    | some PL =>
      have hn1len : d.toNat - 1 < st.layers.length := lt_length_of_getElem?_some hPL
      cases hfs : PL.findSimilarFragments fragment.contextVector (some 0.6) with
      | nil =>
        have hpl : parentLinkIds st fragment d = [] := by
          rw [parentLinkIds, if_pos hdpos, hPL]
          show (match PL.findSimilarFragments fragment.contextVector (some 0.6) with
            | [] => ([] : List String)
            | parent :: _ => [parent.fragmentId]) = []
          rw [hfs]
        have hlay1 : (st.layers.set d.toNat
            { L with fragments := linkedFragments L fragment [] })[d.toNat - 1]? =
            some PL := by
          rw [List.getElem?_set_ne (Ne.symm hn1), hPL]
        have hlayers : connResultLayers st fragment d L =
            (st.layers.set d.toNat
              { L with fragments := linkedFragments L fragment [] }).set (d.toNat - 1)
              { PL with fragments :=
                  appendChildTo PL.fragments [] fragment.fragmentId } := by
          rw [connResultLayers, if_pos hdpos, hpl, connectParentLayer, hlay1]
        refine ⟨_, sameLayerLinkIds L fragment, [], by rw [heq, hlayers], hsl3, by simp,
          hslmem, ?_, fun p hp => absurd hp (List.not_mem_nil p)⟩
        refine ⟨{ L with fragments := linkedFragments L fragment [] }, ?_, hself [], hbid []⟩
        exact getElem?_set_set_ne st.layers d.toNat (d.toNat - 1) _ _ hn1 hnlen
      | cons parent rest =>
        have hpl : parentLinkIds st fragment d = [parent.fragmentId] := by
          rw [parentLinkIds, if_pos hdpos, hPL]
          show (match PL.findSimilarFragments fragment.contextVector (some 0.6) with
            | [] => ([] : List String)
            | parent :: _ => [parent.fragmentId]) = [parent.fragmentId]
          rw [hfs]
        have hlay1 : (st.layers.set d.toNat
            { L with fragments :=
                linkedFragments L fragment [parent.fragmentId] })[d.toNat - 1]? =
            some PL := by
          rw [List.getElem?_set_ne (Ne.symm hn1), hPL]
        have hlayers : connResultLayers st fragment d L =
            (st.layers.set d.toNat
              { L with fragments := linkedFragments L fragment [parent.fragmentId] }).set
              (d.toNat - 1)
              { PL with fragments :=
                  appendChildTo PL.fragments [parent.fragmentId] fragment.fragmentId } := by
          rw [connResultLayers, if_pos hdpos, hpl, connectParentLayer, hlay1]
        have hpmem : parent ∈ PL.findSimilarFragments fragment.contextVector (some 0.6) := by
          rw [hfs]
          exact List.mem_cons_self _ _
        obtain ⟨hpPL, hpsim⟩ := mem_findSimilar ht6 hpmem
        have hpmax : ∀ q ∈ PL.fragments,
            0.6 ≤ calculateVectorSimilarity fragment.contextVector q.contextVector →
            q.importance ≤ parent.importance := by
          intro q hq hqsim
          have hfs' := hfs
          rw [RecursionLayer.findSimilarFragments] at hfs'
          simp only [if_neg ht6] at hfs'
          exact sortDescBy_head_max _ _ parent rest hfs' q
            (List.mem_filter.mpr ⟨hq, decide_eq_true hqsim⟩)
        refine ⟨_, sameLayerLinkIds L fragment, [parent.fragmentId],
          by rw [heq, hlayers], hsl3, by simp, hslmem, ?_, ?_⟩
        · refine ⟨{ L with fragments := linkedFragments L fragment [parent.fragmentId] },
            ?_, hself _, hbid _⟩
          exact getElem?_set_set_ne st.layers d.toNat (d.toNat - 1) _ _ hn1 hnlen
        · intro p hp
          have hp' : p = parent.fragmentId := by
            rcases List.mem_cons.mp hp with h | h
            · exact h
            · exact absurd h (List.not_mem_nil p)
          subst hp'
          refine ⟨hdpos, PL, rfl, ⟨parent, hpPL, rfl, hpsim, hpmax⟩, ?_⟩
          refine
            ⟨{ PL with fragments :=
                  appendChildTo PL.fragments [parent.fragmentId] fragment.fragmentId },
              ?_, ?_⟩
          · exact getElem?_set_set_self st.layers d.toNat (d.toNat - 1) _ _ hn1len
          · exact appendChildTo_link PL.fragments [parent.fragmentId] fragment.fragmentId
              parent parent.fragmentId hpPL rfl (List.mem_singleton.mpr rfl)
  · have hpl : parentLinkIds st fragment d = [] := by
      rw [parentLinkIds, if_neg hdpos]
    have hlayers : connResultLayers st fragment d L =
        st.layers.set d.toNat { L with fragments := linkedFragments L fragment [] } := by
      rw [connResultLayers, if_neg hdpos, hpl]
    refine ⟨_, sameLayerLinkIds L fragment, [], by rw [heq, hlayers], hsl3, by simp,
      hslmem, ?_, fun p hp => absurd hp (List.not_mem_nil p)⟩
    refine ⟨{ L with fragments := linkedFragments L fragment [] }, ?_, hself [], hbid []⟩
    exact List.getElem?_set_self hnlen

/-- Claim C7 (amended): storing a fragment at an explicit valid depth `d`
into a below-capacity layer whose ids do not already contain the new id
succeeds, and `_create_recursive_connections` links the new fragment
bidirectionally (the new fragment lists each partner as parent; each partner
lists it as child) to at most 3 fragments of layer `d`, each an existing
fragment at least 0.7-similar, and to at most 1 fragment of layer `d - 1`
at least 0.6-similar.  The candidates are ranked by *importance*, not by
similarity: the parent-layer link goes to a maximal-importance fragment
among the 0.6-similar ones (see the counterexample for the "most similar"
reading of the spec). -/
theorem recursive_connections_links (st : ManagerState) (content : String)
    (cv : ScrollVector) (imp : ℚ) (d : ℤ) (fid : String) (now : ℚ) (L : RecursionLayer)
    (hd : 0 ≤ d) (hdle : d ≤ (st.maxRecursionDepth : ℤ) - 1)
    (hL : st.layers[d.toNat]? = some L)
    (hcap : L.fragments.length < L.maxFragments)
    (hfid : ∀ g ∈ L.fragments, g.fragmentId ≠ fid) :
    ∃ (st' : ManagerState) (sl pl : List String),
      storeMemoryFragment st content cv imp (some d) fid now = (st', Except.ok fid) ∧
      sl.length ≤ 3 ∧ pl.length ≤ 1 ∧
      (∀ p ∈ sl, p ≠ fid ∧ ∃ f0 ∈ L.fragments, f0.fragmentId = p ∧
        0.7 ≤ calculateVectorSimilarity cv f0.contextVector) ∧
      (∃ L', st'.layers[d.toNat]? = some L' ∧
        (∃ g ∈ L'.fragments, g.fragmentId = fid ∧ g.parentFragments = sl ++ pl) ∧
        (∀ p ∈ sl, ∃ g ∈ L'.fragments, g.fragmentId = p ∧ fid ∈ g.childFragments)) ∧
      (∀ p ∈ pl, 0 < d ∧
        ∃ PL, st.layers[d.toNat - 1]? = some PL ∧
          (∃ parent ∈ PL.fragments, parent.fragmentId = p ∧
            0.6 ≤ calculateVectorSimilarity cv parent.contextVector ∧
            ∀ q ∈ PL.fragments, 0.6 ≤ calculateVectorSimilarity cv q.contextVector →
              q.importance ≤ parent.importance) ∧
          (∃ PL', st'.layers[d.toNat - 1]? = some PL' ∧
            ∃ g ∈ PL'.fragments, g.fragmentId = p ∧ fid ∈ g.childFragments)) := by
  have hpar : (freshFragment content cv imp fid now).parentFragments = [] := rfl
  have hadd : L.addFragment (freshFragment content cv imp fid now) =
      { L with fragments := L.fragments ++ [freshFragment content cv imp fid now] } := by
    rw [RecursionLayer.addFragment]
    simp only [if_neg (not_le.mpr hcap)]
    rw [upsertFragment_fresh _ _ (fun g hg => hfid g hg)]
  have hstore : storeIntoLayer st d.toNat (freshFragment content cv imp fid now) =
      ⟨st.maxRecursionDepth, st.layers.set d.toNat
        { L with fragments := L.fragments ++ [freshFragment content cv imp fid now] }⟩ := by
    rw [storeIntoLayer, hL]
    show (⟨st.maxRecursionDepth, st.layers.set d.toNat
        (L.addFragment (freshFragment content cv imp fid now))⟩ : ManagerState) = _
    rw [hadd]
  have htd : d = min ((some d : Option ℤ).getD
      (calculateOptimalDepth st.maxRecursionDepth content cv))
      ((st.maxRecursionDepth : ℤ) - 1) := by
    rw [Option.getD_some, min_eq_left hdle]
  have hplumb : storeMemoryFragment st content cv imp (some d) fid now =
      (match createRecursiveConnections
          ⟨st.maxRecursionDepth, st.layers.set d.toNat
            { L with fragments := L.fragments ++ [freshFragment content cv imp fid now] }⟩
          (freshFragment content cv imp fid now) d with
       | (st2, Except.ok _) => (st2, Except.ok fid)
       | (st2, Except.error e) => (st2, Except.error e)) := by
    rw [storeMemoryFragment, ← htd, if_neg (not_lt.mpr hd), hstore]
  have hmemfr : freshFragment content cv imp fid now ∈
      L.fragments ++ [freshFragment content cv imp fid now] :=
    List.mem_append_right _ (List.mem_singleton.mpr rfl)
  have hLset : ((⟨st.maxRecursionDepth, st.layers.set d.toNat
      { L with fragments := L.fragments ++ [freshFragment content cv imp fid now] }⟩ :
      ManagerState)).layers[d.toNat]? =
      some { L with fragments := L.fragments ++ [freshFragment content cv imp fid now] } :=
    List.getElem?_set_self (lt_length_of_getElem?_some hL)
  obtain ⟨st', sl, pl, hconn, hsl3, hpl1, hslmem, hLpart, hplpart⟩ :=
    createRecursiveConnections_spec
      ⟨st.maxRecursionDepth, st.layers.set d.toNat
        { L with fragments := L.fragments ++ [freshFragment content cv imp fid now] }⟩
      (freshFragment content cv imp fid now) d
      { L with fragments := L.fragments ++ [freshFragment content cv imp fid now] }
      hd hLset hmemfr hpar
  refine ⟨st', sl, pl, ?_, hsl3, hpl1, ?_, ?_, ?_⟩
  · rw [hplumb, hconn]
  · intro p hp
    obtain ⟨hpne, f0, hf0, hf0id, hf0sim⟩ := hslmem p hp
    have hpne' : p ≠ fid := hpne
    refine ⟨hpne', ?_⟩
    rcases List.mem_append.mp hf0 with h | h
    · exact ⟨f0, h, hf0id, hf0sim⟩
    · exfalso
      apply hpne'
      rw [← hf0id, List.mem_singleton.mp h]
      rfl
  · obtain ⟨L', hL', hg, hbidg⟩ := hLpart
    exact ⟨L', hL', hg, hbidg⟩
  · intro p hp
    obtain ⟨hdpos, PL, hPL1, hparents, hPL'⟩ := hplpart p hp
    have hn1 : d.toNat ≠ d.toNat - 1 := by omega
    have hPL1' : (st.layers.set d.toNat
        { L with fragments :=
            L.fragments ++ [freshFragment content cv imp fid now] })[d.toNat - 1]? =
        some PL := hPL1
    rw [List.getElem?_set_ne hn1] at hPL1'
    exact ⟨hdpos, PL, hPL1', hparents, hPL'⟩

/-- Claim C7, witness: storing into the empty layer 1 of the concrete
two-layer state at explicit depth 1 satisfies the amended linking theorem;
all hypotheses hold by evaluation. -/
theorem recursive_connections_links_witness :
    ∃ (st' : ManagerState) (sl pl : List String),
      storeMemoryFragment c7Pre "cw" ScrollVector.zero 1 (some 1) "W" 0 =
        (st', Except.ok "W") ∧
      sl.length ≤ 3 ∧ pl.length ≤ 1 ∧
      (∀ p ∈ sl, p ≠ "W" ∧ ∃ f0 ∈ c7L1.fragments, f0.fragmentId = p ∧
        0.7 ≤ calculateVectorSimilarity ScrollVector.zero f0.contextVector) ∧
      (∃ L', st'.layers[(1 : ℤ).toNat]? = some L' ∧
        (∃ g ∈ L'.fragments, g.fragmentId = "W" ∧ g.parentFragments = sl ++ pl) ∧
        (∀ p ∈ sl, ∃ g ∈ L'.fragments, g.fragmentId = p ∧ "W" ∈ g.childFragments)) ∧
      (∀ p ∈ pl, 0 < (1 : ℤ) ∧
        ∃ PL, c7Pre.layers[(1 : ℤ).toNat - 1]? = some PL ∧
          (∃ parent ∈ PL.fragments, parent.fragmentId = p ∧
            0.6 ≤ calculateVectorSimilarity ScrollVector.zero parent.contextVector ∧
            ∀ q ∈ PL.fragments,
              0.6 ≤ calculateVectorSimilarity ScrollVector.zero q.contextVector →
              q.importance ≤ parent.importance) ∧
          (∃ PL', st'.layers[(1 : ℤ).toNat - 1]? = some PL' ∧
            ∃ g ∈ PL'.fragments, g.fragmentId = p ∧ "W" ∈ g.childFragments)) :=
  recursive_connections_links c7Pre "cw" ScrollVector.zero 1 1 "W" 0 c7L1
    (by decide) (by decide) rfl (by decide)
    (by intro g hg; simp [c7L1] at hg)

/-! ### Claim C1: recursive computation with an empty memory store -/

/-- The decayed vector of the `field_convergence` fallback branch of
`_compute_next_iteration`: every component scaled by `decay = 0.95`. -/
noncomputable def decayVector (v : ScrollVector) : ScrollVector :=
  ⟨v.x * 0.95, v.y * 0.95, v.z * 0.95, v.temporal * 0.95, v.symbolic * 0.95⟩

theorem magnitude_decayVector (v : ScrollVector) :
    (decayVector v).magnitude = 0.95 * v.magnitude := by
  rw [decayVector, ScrollVector.magnitude, ScrollVector.magnitude]
  have h1 : (v.x * 0.95) ^ 2 + (v.y * 0.95) ^ 2 + (v.z * 0.95) ^ 2 +
      (v.temporal * 0.95) ^ 2 + (v.symbolic * 0.95) ^ 2 =
      (0.95 : ℝ) ^ 2 * (v.x ^ 2 + v.y ^ 2 + v.z ^ 2 + v.temporal ^ 2 + v.symbolic ^ 2) := by
    ring
  rw [h1, Real.sqrt_mul (by positivity), Real.sqrt_sq (by norm_num : (0 : ℝ) ≤ 0.95)]

theorem magnitude_decay_sub (v : ScrollVector) :
    (ScrollVector.sub (decayVector v) v).magnitude = 0.05 * v.magnitude := by
  rw [decayVector, ScrollVector.sub, ScrollVector.magnitude, ScrollVector.magnitude]
  have h1 : (v.x * 0.95 - v.x) ^ 2 + (v.y * 0.95 - v.y) ^ 2 + (v.z * 0.95 - v.z) ^ 2 +
      (v.temporal * 0.95 - v.temporal) ^ 2 + (v.symbolic * 0.95 - v.symbolic) ^ 2 =
      (0.05 : ℝ) ^ 2 * (v.x ^ 2 + v.y ^ 2 + v.z ^ 2 + v.temporal ^ 2 + v.symbolic ^ 2) := by
    ring
  rw [h1, Real.sqrt_mul (by positivity), Real.sqrt_sq (by norm_num : (0 : ℝ) ≤ 0.05)]

theorem layer_map_eta (L : RecursionLayer) (fn : MemoryFragment → MemoryFragment)
    (h : L.fragments = []) : { L with fragments := L.fragments.map fn } = L := by
  obtain ⟨a, b, c, d, e⟩ := L
  replace h : c = [] := h
  subst h
  rfl

theorem retrieve_all_empty (mst : ManagerState) (q : ScrollVector) (mr : ℕ) (t : ℝ)
    (now : ℚ) (h : ∀ L ∈ mst.layers, L.fragments = []) :
    retrieveMemoryFragments mst q mr t now = (mst, []) := by
  have hcand : retrieveCandidates mst q t = [] := by
    rw [retrieveCandidates, foldl_append_eq_flatten]
    have hmap : mst.layers.map (fun layer => layer.findSimilarFragments q (some t)) =
        mst.layers.map (fun _ => ([] : List MemoryFragment)) :=
      List.map_congr_left fun L hL => findSimilar_nil L q (some t) (h L hL)
    rw [hmap]
    have hfl : (mst.layers.map fun _ => ([] : List MemoryFragment)).flatten = [] := by
      rw [List.flatten_eq_nil_iff]
      intro l hl
      obtain ⟨_, _, hEq⟩ := List.mem_map.mp hl
      exact hEq.symm
    rw [hfl]
    rfl
  have hlayers2 : ∀ fn : MemoryFragment → MemoryFragment,
      mst.layers.map (fun layer => { layer with fragments := layer.fragments.map fn }) =
      mst.layers := by
    intro fn
    exact Eq.trans (List.map_congr_left fun L hL => layer_map_eta L fn (h L hL))
      (List.map_id _)
  rw [retrieveMemoryFragments, hcand, List.take_nil, List.map_nil, List.map_nil, hlayers2]

/-- `_compute_next_iteration` under `field_convergence` with no retrieved
memories: plain decay by 0.95. -/
theorem computeNextIteration_nil (v : ScrollVector) :
    computeNextIteration v [] "field_convergence" = decayVector v := by
  rw [computeNextIteration, if_pos rfl]
  rfl

/-- `_compute_next_iteration` under `field_convergence` with a single
positive-importance memory sitting exactly at the current vector: the
weighted centre is the current vector, so the vector does not move. -/
theorem computeNextIteration_single_at_self (v : ScrollVector) (m : MemoryFragment)
    (hc : m.contextVector = v) (hpos : 0 < m.importance) :
    computeNextIteration v [m] "field_convergence" = v := by
  rw [computeNextIteration, if_pos rfl]
  have hws : (0 : ℚ) < m.importance + 0 := by
    rw [add_zero]
    exact hpos
  show (match (if 0 < m.importance + 0 then
      some (⟨v.x + 0.1 * ((m.contextVector.x * (m.importance : ℝ) + 0) /
              ((m.importance + 0 : ℚ) : ℝ) - v.x),
            v.y + 0.1 * ((m.contextVector.y * (m.importance : ℝ) + 0) /
              ((m.importance + 0 : ℚ) : ℝ) - v.y),
            v.z + 0.1 * ((m.contextVector.z * (m.importance : ℝ) + 0) /
              ((m.importance + 0 : ℚ) : ℝ) - v.z),
            v.temporal + 0.1 * ((m.contextVector.temporal * (m.importance : ℝ) + 0) /
              ((m.importance + 0 : ℚ) : ℝ) - v.temporal),
            v.symbolic + 0.1 * ((m.contextVector.symbolic * (m.importance : ℝ) + 0) /
              ((m.importance + 0 : ℚ) : ℝ) - v.symbolic)⟩ : ScrollVector)
    else none) with
    | some w => w
    | none => ⟨v.x * 0.95, v.y * 0.95, v.z * 0.95, v.temporal * 0.95, v.symbolic * 0.95⟩) = v
  rw [if_pos hws, hc]
  have h0 : (m.importance : ℝ) ≠ 0 := ne_of_gt (by exact_mod_cast hpos)
  have hdiv : ∀ a : ℝ, (a * (m.importance : ℝ) + 0) / ((m.importance + 0 : ℚ) : ℝ) = a := by
    intro a
    push_cast
    rw [add_zero, add_zero, mul_div_cancel_right₀ a h0]
  simp only [hdiv]
  have hxx : ∀ a : ℝ, a + 0.1 * (a - a) = a := by
    intro a
    ring
  simp only [hxx]
  exact fun hx => List.noConfusion hx

theorem sortDescBy_singleton {α β : Type _} [LinearOrder β] (key : α → β) (a : α) :
    sortDescBy key [a] = [a] := rfl

/-- `add_fragment` into an empty layer stores exactly the new fragment
(no eviction can fire on an empty dict). -/
theorem addFragment_empty (L : RecursionLayer) (f : MemoryFragment)
    (h : L.fragments = []) : (L.addFragment f).fragments = [f] := by
  rw [RecursionLayer.addFragment]
  simp [h, upsertFragment, pyMinBy]

/-- One loop pass of `_execute_recursive_computation` that does not
converge: the state advances and the intermediate vector is stored. -/
theorem runRecursion_step_continue (contentOf : ℕ → ScrollVector → String)
    (fragIdOf : ℕ → String) (now : ℚ) (fuel : ℕ) (mst mst1 : ManagerState)
    (rst : RecursionState) (mem : List MemoryFragment) (nv : ScrollVector)
    (hrun : rst.iteration < rst.maxIterations ∧ rst.status = "running")
    (hret : retrieveMemoryFragments mst rst.currentVector 5 0.3 now = (mst1, mem))
    (hnv : computeNextIteration rst.currentVector mem rst.computationType = nv)
    (hnc : ¬ (ScrollVector.sub nv rst.currentVector).magnitude < rst.convergenceThreshold) :
    runRecursion contentOf fragIdOf now (fuel + 1) mst rst =
      (match (storeMemoryFragment mst1 (contentOf (rst.iteration + 1) nv) nv (1 / 2) none
          (fragIdOf (rst.iteration + 1)) now).2 with
       | Except.ok _ =>
           runRecursion contentOf fragIdOf now fuel
             (storeMemoryFragment mst1 (contentOf (rst.iteration + 1) nv) nv (1 / 2) none
               (fragIdOf (rst.iteration + 1)) now).1
             { rst with
                 currentVector := nv
                 history := rst.history ++ [nv]
                 iteration := rst.iteration + 1 }
       | Except.error _ =>
           ((storeMemoryFragment mst1 (contentOf (rst.iteration + 1) nv) nv (1 / 2) none
               (fragIdOf (rst.iteration + 1)) now).1,
             { rst with
                 currentVector := nv
                 history := rst.history ++ [nv]
                 iteration := rst.iteration + 1 })) := by
  rw [runRecursion, if_pos hrun]
  simp only [hret]
  rw [hnv, if_neg hnc]

/-- One loop pass of `_execute_recursive_computation` that converges:
the status flips to `converged` and nothing else changes. -/
theorem runRecursion_step_converge (contentOf : ℕ → ScrollVector → String)
    (fragIdOf : ℕ → String) (now : ℚ) (fuel : ℕ) (mst mst1 : ManagerState)
    (rst : RecursionState) (mem : List MemoryFragment) (nv : ScrollVector)
    (hrun : rst.iteration < rst.maxIterations ∧ rst.status = "running")
    (hret : retrieveMemoryFragments mst rst.currentVector 5 0.3 now = (mst1, mem))
    (hnv : computeNextIteration rst.currentVector mem rst.computationType = nv)
    (hconv : (ScrollVector.sub nv rst.currentVector).magnitude < rst.convergenceThreshold) :
    runRecursion contentOf fragIdOf now (fuel + 1) mst rst =
      (mst1, { rst with status := "converged" }) := by
  rw [runRecursion, if_pos hrun]
  simp only [hret]
  rw [hnv, if_pos hconv]

/-- Default retrieval over a state that differs from an all-empty-layer
state by exactly one stored fragment (up to link rewiring): the result is
that one fragment, access-updated. -/
theorem retrieve_after_store_empty (mst st2 : ManagerState) (q : ScrollVector)
    (content fid : String) (imp : ℚ) (tsnow now : ℚ) (n : ℕ)
    (hempty : ∀ L ∈ mst.layers, L.fragments = [])
    (hlen2 : st2.layers.length = mst.layers.length)
    (hnlt : n < mst.layers.length)
    (hother : ∀ j, j ≠ n → st2.layers[j]?.map layerView = mst.layers[j]?.map layerView)
    (htarget : st2.layers[n]?.map layerView =
      mst.layers[n]?.map fun L =>
        layerView (L.addFragment (freshFragment content q imp fid tsnow))) :
    ∃ g : MemoryFragment, g.contextVector = q ∧ g.importance = imp ∧
      retrieveMemoryFragments st2 q 5 0.3 now =
        ((retrieveMemoryFragments st2 q 5 0.3 now).1, [updateAccess now g]) := by
  obtain ⟨Ln, hLn⟩ : ∃ Ln, mst.layers[n]? = some Ln := ⟨_, List.getElem?_eq_getElem hnlt⟩
  have hLnE : Ln.fragments = [] := hempty Ln (List.getElem?_mem hLn)
  rw [hLn, Option.map_some'] at htarget
  cases hL2 : st2.layers[n]? with
  | none =>
    rw [hL2] at htarget
    simp at htarget
  | some L2 =>
    rw [hL2, Option.map_some', Option.some_inj] at htarget
    have hfrv : L2.fragments.map fragView =
        (Ln.addFragment (freshFragment content q imp fid tsnow)).fragments.map fragView := by
      have := congrArg (fun t => t.2.2.2.2) htarget
      simpa [layerView] using this
    rw [addFragment_empty Ln _ hLnE] at hfrv
    simp only [List.map_cons, List.map_nil] at hfrv
    have hlen1 : L2.fragments.length = 1 := by
      have := congrArg List.length hfrv
      simpa using this
    obtain ⟨g, hg⟩ := List.length_eq_one.mp hlen1
    rw [hg, List.map_cons, List.map_nil, List.cons.injEq] at hfrv
    obtain ⟨hgid, hgctx0, hgimp0, hgacc⟩ := fragView_fields hfrv.1
    have hgctx : g.contextVector = q := hgctx0
    have hgimp : g.importance = imp := hgimp0
    have hothersFS : ∀ j, j ≠ n → ∀ L', st2.layers[j]? = some L' →
        L'.findSimilarFragments q (some 0.3) = [] := by
      intro j hj L' hL'
      have hview := hother j hj
      rw [hL'] at hview
      cases hMj : mst.layers[j]? with
      | none =>
        rw [hMj] at hview
        simp at hview
      | some Mj =>
        rw [hMj, Option.map_some', Option.map_some', Option.some_inj] at hview
        have hfr : L'.fragments.map fragView = Mj.fragments.map fragView := by
          have := congrArg (fun t => t.2.2.2.2) hview
          simpa [layerView] using this
        have hMempty : Mj.fragments = [] := hempty Mj (List.getElem?_mem hMj)
        rw [hMempty, List.map_nil, List.map_eq_nil_iff] at hfr
        exact findSimilar_nil L' q (some 0.3) hfr
    have hcand : retrieveCandidates st2 q 0.3 = [g] := by
      rw [retrieveCandidates, foldl_append_eq_flatten]
      rw [flatten_map_of_single (fun L => L.findSimilarFragments q (some 0.3)) st2.layers n
        L2 hL2 hothersFS]
      rw [findSimilar_singleton L2 q 0.3 g hg (by norm_num) (by
        rw [hgctx, calculateVectorSimilarity_self]
        norm_num)]
      exact sortDescBy_singleton _ g
    have hsnd : (retrieveMemoryFragments st2 q 5 0.3 now).2 = [updateAccess now g] := by
      rw [retrieveMemoryFragments_snd, hcand]
      rfl
    refine ⟨g, hgctx, hgimp, ?_⟩
    rw [← hsnd]

/-- The recursion-state dict after the first `field_convergence` pass over
an empty store: one decay step recorded, still running. -/
noncomputable def recursionPass1State (v0 : ScrollVector) (maxIter : ℕ) : RecursionState where
  currentVector := decayVector v0
  computationType := "field_convergence"
  iteration := 1
  maxIterations := maxIter
  history := [v0, decayVector v0]
  convergenceThreshold := 1e-6
  status := "running"

/-- `_execute_recursive_computation` under `field_convergence` on a store
whose layers are all empty: the first pass decays the vector once and
persists it as a fragment; the second pass retrieves that fragment, whose
weighted centre is the current vector itself, so the difference is zero
and the computation converges — at iteration 1, after a single decay. -/
theorem runRecursion_emptyStore_eval (contentOf : ℕ → ScrollVector → String)
    (fragIdOf : ℕ → String) (now : ℚ) (mst : ManagerState) (v0 : ScrollVector)
    (maxIter fuel : ℕ)
    (hlen : mst.layers.length = mst.maxRecursionDepth)
    (hmax1 : 1 ≤ mst.maxRecursionDepth)
    (hempty : ∀ L ∈ mst.layers, L.fragments = [])
    (hthr : (1e-6 : ℝ) ≤ 0.05 * v0.magnitude)
    (hiter : 2 ≤ maxIter) (hfuel : 2 ≤ fuel) :
    ∃ mstF, runRecursion contentOf fragIdOf now fuel mst
        (initialRecursionState v0 "field_convergence" maxIter) =
      (mstF, { recursionPass1State v0 maxIter with status := "converged" }) := by
  obtain ⟨f, rfl⟩ : ∃ f, fuel = f + 1 + 1 := ⟨fuel - 2, by omega⟩
  have hrun0 : (initialRecursionState v0 "field_convergence" maxIter).iteration <
      (initialRecursionState v0 "field_convergence" maxIter).maxIterations ∧
      (initialRecursionState v0 "field_convergence" maxIter).status = "running" :=
    ⟨show 0 < maxIter by omega, rfl⟩
  have hret1 : retrieveMemoryFragments mst
      (initialRecursionState v0 "field_convergence" maxIter).currentVector 5 0.3 now =
      (mst, []) := retrieve_all_empty mst _ 5 0.3 now hempty
  have hnv1 : computeNextIteration
      (initialRecursionState v0 "field_convergence" maxIter).currentVector []
      (initialRecursionState v0 "field_convergence" maxIter).computationType =
      decayVector v0 := computeNextIteration_nil v0
  have hnc1 : ¬ (ScrollVector.sub (decayVector v0)
      (initialRecursionState v0 "field_convergence" maxIter).currentVector).magnitude <
      (initialRecursionState v0 "field_convergence" maxIter).convergenceThreshold := by
    show ¬ (ScrollVector.sub (decayVector v0) v0).magnitude < (1e-6 : ℝ)
    rw [magnitude_decay_sub v0]
    exact not_lt.mpr hthr
  have h1 := runRecursion_step_continue contentOf fragIdOf now (f + 1) mst mst
    (initialRecursionState v0 "field_convergence" maxIter) [] (decayVector v0)
    hrun0 hret1 hnv1 hnc1
  have h1' : runRecursion contentOf fragIdOf now (f + 1 + 1) mst
      (initialRecursionState v0 "field_convergence" maxIter) =
      (match (storeMemoryFragment mst (contentOf 1 (decayVector v0)) (decayVector v0)
          (1 / 2) none (fragIdOf 1) now).2 with
       | Except.ok _ =>
           runRecursion contentOf fragIdOf now (f + 1)
             (storeMemoryFragment mst (contentOf 1 (decayVector v0)) (decayVector v0)
               (1 / 2) none (fragIdOf 1) now).1 (recursionPass1State v0 maxIter)
       | Except.error _ =>
           ((storeMemoryFragment mst (contentOf 1 (decayVector v0)) (decayVector v0)
               (1 / 2) none (fragIdOf 1) now).1, recursionPass1State v0 maxIter)) := h1
  have hd0 : (0 : ℤ) ≤ min (calculateOptimalDepth mst.maxRecursionDepth
      (contentOf 1 (decayVector v0)) (decayVector v0)) ((mst.maxRecursionDepth : ℤ) - 1) :=
    le_min (calculateOptimalDepth_nonneg _ _ _ hmax1) (by omega)
  have hdlt : (min (calculateOptimalDepth mst.maxRecursionDepth
      (contentOf 1 (decayVector v0)) (decayVector v0))
      ((mst.maxRecursionDepth : ℤ) - 1)).toNat < mst.layers.length := by
    have h2 : min (calculateOptimalDepth mst.maxRecursionDepth
        (contentOf 1 (decayVector v0)) (decayVector v0))
        ((mst.maxRecursionDepth : ℤ) - 1) ≤ (mst.maxRecursionDepth : ℤ) - 1 :=
      min_le_right _ _
    omega
  obtain ⟨st2, hst2, hmax2, hlen2, hother2, htarget2⟩ :=
    storeMemoryFragment_ok_view mst (contentOf 1 (decayVector v0)) (decayVector v0)
      (1 / 2) none (fragIdOf 1) now
      (min (calculateOptimalDepth mst.maxRecursionDepth
        (contentOf 1 (decayVector v0)) (decayVector v0)) ((mst.maxRecursionDepth : ℤ) - 1))
      (by rw [Option.getD_none]) hd0 hdlt
  rw [hst2] at h1'
  have h1f : runRecursion contentOf fragIdOf now (f + 1 + 1) mst
      (initialRecursionState v0 "field_convergence" maxIter) =
      runRecursion contentOf fragIdOf now (f + 1) st2 (recursionPass1State v0 maxIter) := by
    rw [h1']
  obtain ⟨g, hgctx, hgimp, hret2⟩ := retrieve_after_store_empty mst st2 (decayVector v0)
    (contentOf 1 (decayVector v0)) (fragIdOf 1) (1 / 2) now now _ hempty hlen2 hdlt
    hother2 htarget2
  have hrun1 : (recursionPass1State v0 maxIter).iteration <
      (recursionPass1State v0 maxIter).maxIterations ∧
      (recursionPass1State v0 maxIter).status = "running" :=
    ⟨show 1 < maxIter by omega, rfl⟩
  have hret2' : retrieveMemoryFragments st2
      (recursionPass1State v0 maxIter).currentVector 5 0.3 now =
      ((retrieveMemoryFragments st2 (decayVector v0) 5 0.3 now).1,
        [updateAccess now g]) := hret2
  have hupctx : (updateAccess now g).contextVector = decayVector v0 := by
    rw [show (updateAccess now g).contextVector = g.contextVector from rfl, hgctx]
  have hupimp : 0 < (updateAccess now g).importance := by
    show 0 < g.importance * max (1 / 10) (1 - (now - g.timestamp) / 86400 * (1 / 100))
    apply mul_pos
    · rw [hgimp]
      norm_num
    · exact lt_of_lt_of_le (by norm_num) (le_max_left _ _)
  have hnv2 : computeNextIteration (recursionPass1State v0 maxIter).currentVector
      [updateAccess now g] (recursionPass1State v0 maxIter).computationType =
      (recursionPass1State v0 maxIter).currentVector :=
    computeNextIteration_single_at_self (decayVector v0) (updateAccess now g) hupctx hupimp
  have hconv2 : (ScrollVector.sub (recursionPass1State v0 maxIter).currentVector
      (recursionPass1State v0 maxIter).currentVector).magnitude <
      (recursionPass1State v0 maxIter).convergenceThreshold := by
    rw [ScrollVector.magnitude_self_sub_zero]
    show (0 : ℝ) < (1e-6 : ℝ)
    norm_num
  have h2 := runRecursion_step_converge contentOf fragIdOf now f st2
    ((retrieveMemoryFragments st2 (decayVector v0) 5 0.3 now).1)
    (recursionPass1State v0 maxIter) [updateAccess now g]
    ((recursionPass1State v0 maxIter).currentVector)
    hrun1 hret2' hnv2 hconv2
  refine ⟨(retrieveMemoryFragments st2 (decayVector v0) 5 0.3 now).1, ?_⟩
  rw [h1f, h2]

theorem magnitude_unit_x : (⟨1, 0, 0, 0, 0⟩ : ScrollVector).magnitude = 1 := by
  rw [ScrollVector.magnitude]
  norm_num [Real.sqrt_one]

/-- Claim C1, counterexample: on the ten-layer initial store with
`field_convergence`, initial vector `(1,0,0,0,0)` and `maxIterations = 100`,
the computation stops with status `converged` at iteration 1 after a single
0.95 decay — because the fragment persisted by iteration 1 is retrieved at
iteration 2 and the weighted centre equals the current vector, making the
step difference zero.  Under the claimed pure-decay dynamics the difference
after one decay is `0.05 * 0.95 > 1e-6`, so the run could not have
converged there, and with per-iteration decay it would have reached
`max_iterations_reached` instead. -/
theorem recursion_decay_claim_counterexample :
    (∃ mstF, runRecursion (fun _ _ => "") (fun _ => "frag") 0 101
        (initialManagerState 10 (1 / 2))
        (initialRecursionState ⟨1, 0, 0, 0, 0⟩ "field_convergence" 100) =
      (mstF, { recursionPass1State ⟨1, 0, 0, 0, 0⟩ 100 with status := "converged" })) ∧
    ({ recursionPass1State (⟨1, 0, 0, 0, 0⟩ : ScrollVector) 100 with
        status := "converged" } : RecursionState).iteration = 1 ∧
    ({ recursionPass1State (⟨1, 0, 0, 0, 0⟩ : ScrollVector) 100 with
        status := "converged" } : RecursionState).status ≠ "max_iterations_reached" ∧
    (recursionPass1State (⟨1, 0, 0, 0, 0⟩ : ScrollVector) 100).currentVector.magnitude =
      0.95 ∧
    (1e-6 : ℝ) < 0.05 * 0.95 := by
  obtain ⟨mstF, hrun⟩ := runRecursion_emptyStore_eval (fun _ _ => "") (fun _ => "frag") 0
    (initialManagerState 10 (1 / 2)) ⟨1, 0, 0, 0, 0⟩ 100 101
    (by simp [initialManagerState])
    (by norm_num [initialManagerState])
    (by
      intro L hL
      simp only [initialManagerState] at hL
      obtain ⟨i, _, rfl⟩ := List.mem_map.mp hL
      rfl)
    (by rw [magnitude_unit_x]; norm_num)
    (by norm_num) (by norm_num)
  refine ⟨⟨mstF, hrun⟩, rfl, by decide, ?_, by norm_num⟩
  show (decayVector ⟨1, 0, 0, 0, 0⟩).magnitude = 0.95
  rw [magnitude_decayVector, magnitude_unit_x]
  norm_num

/-- Claim C1 (amended): starting `field_convergence` over a store whose
layers are all empty decays the vector once by 0.95 and persists the
intermediate vector as a fragment; that fragment is retrieved at the next
iteration and acts as a fixed point (the importance-weighted centre equals
the current vector), so the computation ends with status `converged` at
iteration 1 with history `[v0, 0.95 v0]` — not with a per-iteration decay
until the difference falls below 1e-6 or `maxIterations` is reached. -/
theorem recursion_empty_store_convergence (contentOf : ℕ → ScrollVector → String)
    (fragIdOf : ℕ → String) (now : ℚ) (mst : ManagerState) (v0 : ScrollVector)
    (maxIter fuel : ℕ)
    (hlen : mst.layers.length = mst.maxRecursionDepth)
    (hmax1 : 1 ≤ mst.maxRecursionDepth)
    (hempty : ∀ L ∈ mst.layers, L.fragments = [])
    (hthr : (1e-6 : ℝ) ≤ 0.05 * v0.magnitude)
    (hiter : 2 ≤ maxIter) (hfuel : 2 ≤ fuel) :
    (∃ mstF, runRecursion contentOf fragIdOf now fuel mst
        (initialRecursionState v0 "field_convergence" maxIter) =
      (mstF,
        { currentVector := decayVector v0
          computationType := "field_convergence"
          iteration := 1
          maxIterations := maxIter
          history := [v0, decayVector v0]
          convergenceThreshold := 1e-6
          status := "converged" })) ∧
    (decayVector v0).magnitude = 0.95 * v0.magnitude := by
  obtain ⟨mstF, h⟩ := runRecursion_emptyStore_eval contentOf fragIdOf now mst v0
    maxIter fuel hlen hmax1 hempty hthr hiter hfuel
  exact ⟨⟨mstF, h⟩, magnitude_decayVector v0⟩

/-- Claim C1, witness: the single-layer initial store, initial vector
`(1,0,0,0,0)`, `maxIterations = 2`: the run converges at iteration 1 with
one decay step. -/
theorem recursion_empty_store_convergence_witness :
    (∃ mstF, runRecursion (fun _ _ => "w") (fun _ => "wfrag") 0 2
        (initialManagerState 1 (1 / 2))
        (initialRecursionState ⟨1, 0, 0, 0, 0⟩ "field_convergence" 2) =
      (mstF,
        { currentVector := decayVector ⟨1, 0, 0, 0, 0⟩
          computationType := "field_convergence"
          iteration := 1
          maxIterations := 2
          history := [⟨1, 0, 0, 0, 0⟩, decayVector ⟨1, 0, 0, 0, 0⟩]
          convergenceThreshold := 1e-6
          status := "converged" })) ∧
    (decayVector (⟨1, 0, 0, 0, 0⟩ : ScrollVector)).magnitude =
      0.95 * (⟨1, 0, 0, 0, 0⟩ : ScrollVector).magnitude :=
  recursion_empty_store_convergence (fun _ _ => "w") (fun _ => "wfrag") 0
    (initialManagerState 1 (1 / 2)) ⟨1, 0, 0, 0, 0⟩ 2 2
    (by simp [initialManagerState])
    (by norm_num [initialManagerState])
    (by
      intro L hL
      simp only [initialManagerState] at hL
      obtain ⟨i, _, rfl⟩ := List.mem_map.mp hL
      rfl)
    (by rw [magnitude_unit_x]; norm_num)
    le_rfl le_rfl

end CodexDrift
